import Mathlib

/-!
Shallow embedding of the `DiagramService` graph-state engine
(src/app/services/diagram.service.ts, enterprise variant) and verification
of its specification.

Conventions of the embedding:
* JavaScript numbers are modelled as `ℚ` (the code only ever adds, multiplies
  and divides percentages by 100; no rounding or overflow is involved).
* The Angular signals `nodes`, `edges`, `selectedNodeId`, `highlightedPath`,
  `sandboxMode` and the private field `originalState` form the record
  `DiagramState`; purely presentational signals (`viewMode`, `coloringMode`,
  `dataOverlay`, filters, capture) are never touched by the operations under
  specification and are omitted.
* JS `Set<string>` is modelled as `Finset String`.
* Mutating methods become functions `DiagramState → ... → DiagramState`.
* The unbounded recursion of `propagateOwnership` is modelled with an explicit
  fuel argument; `calculateEffectiveOwnership` supplies fuel `edges.length + 1`,
  which never runs out on an acyclic edge set (any repetition-free chain uses
  each edge at most once).
* The zod validation boundary (`DiagramSchema.safeParse` on an `unknown` input)
  is modelled by the inductive type `Json` together with a parser that mirrors
  zod's behaviour: required fields must be present with the right type,
  optional fields may be absent but must be well-typed when present, unknown
  keys are stripped.  `JSON.stringify`/`JSON.parse` of a well-formed value is
  modelled as the identity on `Json`, so `exportDiagram` produces the `Json`
  tree that parsing its output string would yield (`undefined` fields are
  omitted by `JSON.stringify`, hence `none` fields produce no key).
-/

/-- Status enumeration of `NodeSchema.status` :
`z.enum(['Active', 'Liquidation', 'Acquisition'])`. -/
inductive EntityStatus where
  | Active
  | Liquidation
  | Acquisition
deriving DecidableEq, Repr

/-- Enumeration of `NodeSchema.pillarTwoStatus` :
`z.enum(['In-Scope', 'Excluded', 'Safe-Harbor', 'Pending', 'N/A'])`. -/
inductive PillarTwoStatus where
  | InScope
  | Excluded
  | SafeHarbor
  | Pending
  | NA
deriving DecidableEq, Repr

/-- The `dimension` ngx-graph field set by the service
(`{ width: 200, height: 90 }` resp. `{ width: 220, height: 100 }`). -/
structure Dimension where
  width : ℚ
  height : ℚ
deriving DecidableEq, Repr

/-- A node record: the fields of `NodeSchema` (enterprise variant) plus the
ngx-graph `dimension` field that the service writes.  Optional zod fields are
`Option`s; a JS `undefined` field is `none`. -/
structure DiagramNode where
  id : String
  label : String
  color : Option String := none
  entityType : Option String := none
  jurisdiction : Option String := none
  taxId : Option String := none
  officers : Option (List String) := none
  filingDueDate : Option String := none
  isDraft : Option Bool := none
  taxResidency : Option String := none
  localCurrency : Option String := none
  citRate : Option ℚ := none
  effectiveOwnership : Option ℚ := none
  status : Option EntityStatus := none
  region : Option String := none
  pillarTwoStatus : Option PillarTwoStatus := none
  dimension : Option Dimension := none
deriving DecidableEq, Repr

/-- An edge record: the fields of `EdgeSchema`. -/
structure DiagramEdge where
  id : String
  source : String
  target : String
  label : Option String := none
  ownershipPercentage : Option ℚ := none
  isDraft : Option Bool := none
deriving DecidableEq, Repr

/-- The state held by `DiagramService`: the signals `nodes`, `edges`,
`selectedNodeId`, `highlightedPath`, `sandboxMode` and the private
`originalState` snapshot. -/
structure DiagramState where
  nodes : List DiagramNode
  edges : List DiagramEdge
  selectedNodeId : Option String
  highlightedPath : Finset String
  sandboxMode : Bool
  originalState : Option (List DiagramNode × List DiagramEdge)
deriving DecidableEq

/-- A state with empty graph, no selection, no highlight, live mode. -/
def emptyState : DiagramState :=
  { nodes := [], edges := [], selectedNodeId := none, highlightedPath := ∅,
    sandboxMode := false, originalState := none }

/-! ### Path tracer (`tracePathToRoot`) -/

/-- One measure ingredient for the BFS loop: the identifiers that may still
become newly visited (current queue members and all edge sources). -/
def traceCandidates (edges : List DiagramEdge) (queue : List String)
    (visited : Finset String) : Finset String :=
  (queue.toFinset ∪ (edges.map (fun e => e.source)).toFinset) \ visited

/-- BFS loop body of `tracePathToRoot`: a work queue (JS `queue`, head =
front), the `visited` set and the accumulated `path` set.  Each popped
unvisited id is added to `path`, and every edge targeting it contributes its
own id to `path` and its source to the queue. -/
def traceLoop (edges : List DiagramEdge) :
    List String → Finset String → Finset String → Finset String
  | [], _, path => path
  | c :: queue, visited, path =>
    if c ∈ visited then
      traceLoop edges queue visited path
    else
      let parentEdges := edges.filter (fun e => e.target = c)
      traceLoop edges (queue ++ parentEdges.map (fun e => e.source))
        (insert c visited)
        (parentEdges.foldl (fun p e => insert e.id p) (insert c path))
termination_by queue visited _ =>
  (edges.length + 1) * (traceCandidates edges queue visited).card + queue.length
decreasing_by
  · have hsub : traceCandidates edges queue visited ⊆
        traceCandidates edges (c :: queue) visited := by
      intro x hx
      simp only [traceCandidates, Finset.mem_sdiff, Finset.mem_union,
        List.toFinset_cons, Finset.mem_insert, List.mem_toFinset] at hx ⊢
      tauto
    have hcard := Finset.card_le_card hsub
    have hmul := Nat.mul_le_mul_left (edges.length + 1) hcard
    simp only [List.length_cons]
    omega
  · have hc : c ∈ traceCandidates edges (c :: queue) visited := by
      simp only [traceCandidates, Finset.mem_sdiff, Finset.mem_union,
        List.toFinset_cons, Finset.mem_insert, List.mem_toFinset]
      tauto
    have hsub : traceCandidates edges
        (queue ++ (edges.filter (fun e => e.target = c)).map (fun e => e.source))
        (insert c visited) ⊆
        (traceCandidates edges (c :: queue) visited).erase c := by
      intro x hx
      simp only [traceCandidates, Finset.mem_sdiff, Finset.mem_union,
        List.toFinset_cons, Finset.mem_insert, List.mem_toFinset,
        Finset.mem_erase, List.mem_append, List.mem_map, List.mem_filter,
        decide_eq_true_eq] at hx ⊢
      tauto
    have hcard : (traceCandidates edges
        (queue ++ (edges.filter (fun e => e.target = c)).map (fun e => e.source))
        (insert c visited)).card
        < (traceCandidates edges (c :: queue) visited).card := by
      calc _ ≤ ((traceCandidates edges (c :: queue) visited).erase c).card :=
            Finset.card_le_card hsub
        _ < (traceCandidates edges (c :: queue) visited).card :=
            Finset.card_erase_lt_of_mem hc
    have hlen : (edges.filter (fun e => e.target = c)).length ≤ edges.length :=
      List.length_filter_le _ _
    have hmul := Nat.mul_le_mul_left (edges.length + 1) (Nat.succ_le_of_lt hcard)
    rw [Nat.mul_succ] at hmul
    simp only [List.length_append, List.length_map, List.length_cons]
    omega

/-- `tracePathToRoot(startNodeId)`: BFS over incoming edges starting from
`startNodeId`, returning the highlighted set of node and edge ids. -/
def tracePathToRoot (edges : List DiagramEdge) (startNodeId : String) :
    Finset String :=
  traceLoop edges [startNodeId] ∅ ∅

/-! ### Graph store operations -/

/-- `Partial<DiagramNode>` for `updateNode`: each field may be given (and
then overrides the stored field, exactly like the JS spread `{...n, ...p}`)
or left out. -/
structure NodeUpdate where
  id : Option String := none
  label : Option String := none
  color : Option (Option String) := none
  entityType : Option (Option String) := none
  jurisdiction : Option (Option String) := none
  taxId : Option (Option String) := none
  officers : Option (Option (List String)) := none
  filingDueDate : Option (Option String) := none
  isDraft : Option (Option Bool) := none
  taxResidency : Option (Option String) := none
  localCurrency : Option (Option String) := none
  citRate : Option (Option ℚ) := none
  effectiveOwnership : Option (Option ℚ) := none
  status : Option (Option EntityStatus) := none
  region : Option (Option String) := none
  pillarTwoStatus : Option (Option PillarTwoStatus) := none
  dimension : Option (Option Dimension) := none
deriving DecidableEq, Repr

/-- The JS object spread `{ ...n, ...u }`. -/
def applyNodeUpdate (n : DiagramNode) (u : NodeUpdate) : DiagramNode :=
  { id := u.id.getD n.id
    label := u.label.getD n.label
    color := u.color.getD n.color
    entityType := u.entityType.getD n.entityType
    jurisdiction := u.jurisdiction.getD n.jurisdiction
    taxId := u.taxId.getD n.taxId
    officers := u.officers.getD n.officers
    filingDueDate := u.filingDueDate.getD n.filingDueDate
    isDraft := u.isDraft.getD n.isDraft
    taxResidency := u.taxResidency.getD n.taxResidency
    localCurrency := u.localCurrency.getD n.localCurrency
    citRate := u.citRate.getD n.citRate
    effectiveOwnership := u.effectiveOwnership.getD n.effectiveOwnership
    status := u.status.getD n.status
    region := u.region.getD n.region
    pillarTwoStatus := u.pillarTwoStatus.getD n.pillarTwoStatus
    dimension := u.dimension.getD n.dimension }

/-- `updateNode(id, partialFields)`: map over the nodes, merging the given
fields into the node whose id matches. -/
def updateNode (st : DiagramState) (id : String) (u : NodeUpdate) :
    DiagramState :=
  { st with nodes := st.nodes.map (fun n => if n.id = id then applyNodeUpdate n u else n) }

/-- `selectNode(id)`: store the selection unconditionally; `if (id)` is a JS
truthiness check, so only a non-null, non-empty id triggers
`tracePathToRoot` — null and the falsy empty string clear the highlighted
path. -/
def selectNode (st : DiagramState) (id : Option String) : DiagramState :=
  match id with
  | some i =>
    if i = "" then
      { st with selectedNodeId := some i, highlightedPath := ∅ }
    else
      { st with selectedNodeId := some i,
                highlightedPath := tracePathToRoot st.edges i }
  | none => { st with selectedNodeId := none, highlightedPath := ∅ }

/-- `addNode(node)`: set the ngx dimension on the argument and append it. -/
def addNode (st : DiagramState) (node : DiagramNode) : DiagramState :=
  { st with nodes := st.nodes ++ [{ node with dimension := some ⟨200, 90⟩ }] }

/-- `removeNode(id)`: drop the node, cascade-delete incident edges, clear the
selection when it pointed at the removed id. -/
def removeNode (st : DiagramState) (id : String) : DiagramState :=
  { st with
    nodes := st.nodes.filter (fun n => decide (n.id ≠ id))
    edges := st.edges.filter (fun e => decide (e.source ≠ id) && decide (e.target ≠ id))
    selectedNodeId := if st.selectedNodeId = some id then none else st.selectedNodeId }

/-- `startSandbox()`: no-op when already sandboxed, otherwise snapshot
nodes/edges (the JSON round trip makes a deep value copy) and raise the flag. -/
def startSandbox (st : DiagramState) : DiagramState :=
  if st.sandboxMode then st
  else { st with originalState := some (st.nodes, st.edges), sandboxMode := true }

/-- `commitSandbox()`: no-op when not sandboxed, otherwise clear every draft
flag, drop the snapshot and lower the flag. -/
def commitSandbox (st : DiagramState) : DiagramState :=
  if !st.sandboxMode then st
  else
    { st with
      nodes := st.nodes.map (fun n => { n with isDraft := some false })
      edges := st.edges.map (fun e => { e with isDraft := some false })
      originalState := none
      sandboxMode := false }

/-- `discardSandbox()`: no-op when not sandboxed or no snapshot exists,
otherwise restore nodes/edges from the snapshot, drop it, lower the flag. -/
def discardSandbox (st : DiagramState) : DiagramState :=
  match st.sandboxMode, st.originalState with
  | true, some orig =>
    { st with nodes := orig.1, edges := orig.2,
              originalState := none, sandboxMode := false }
  | _, _ => st

/-- The mutation operations a sandbox session may interleave
(claim C2: "any finite sequence of addNode / updateNode / removeNode"). -/
inductive StoreOp where
  | add (n : DiagramNode)
  | update (id : String) (u : NodeUpdate)
  | remove (id : String)

/-- Run one store operation. -/
def applyStoreOp (st : DiagramState) : StoreOp → DiagramState
  | .add n => addNode st n
  | .update id u => updateNode st id u
  | .remove id => removeNode st id

/-- Run a sequence of store operations from left to right. -/
def applyStoreOps (st : DiagramState) (ops : List StoreOp) : DiagramState :=
  ops.foldl applyStoreOp st

/-! ### Ownership propagator (`loadFlatEntityList`, `calculateEffectiveOwnership`,
`propagateOwnership`) -/

/-- The direct stake of an edge: `edge.ownershipPercentage || 0` (for a JS
number, `|| 0` maps both `undefined` and `0` to `0`). -/
def directStake (e : DiagramEdge) : ℚ := e.ownershipPercentage.getD 0

/-- The in-place mutation
`childNode.effectiveOwnership = (childNode.effectiveOwnership || 0) + v`
performed on the node object returned by `nodes.find(n => n.id === tid)`,
i.e. on the first node whose id matches. -/
def addEff : List DiagramNode → String → ℚ → List DiagramNode
  | [], _, _ => []
  | n :: ns, tid, v =>
    if n.id = tid then
      { n with effectiveOwnership := some (n.effectiveOwnership.getD 0 + v) } :: ns
    else n :: addEff ns tid v

/-- `propagateOwnership(parentId, parentEffective, nodes, edges)`.  The JS
recursion is unbounded; `fuel` bounds the recursion depth in the embedding
(each recursive call walks one edge further from the start, so fuel
`edges.length + 1` never runs out on an acyclic edge set).  For each edge
out of `parentId` whose target is a present node (`nodes.find` succeeds,
here `any`), the effective stake is accumulated onto that node and
propagation recurses from it. -/
def propagateOwnership (edges : List DiagramEdge) :
    Nat → String → ℚ → List DiagramNode → List DiagramNode
  | 0, _, _, nodes => nodes
  | fuel + 1, parentId, parentEffective, nodes =>
    (edges.filter (fun e => e.source = parentId)).foldl
      (fun acc e =>
        if acc.any (fun n => decide (n.id = e.target)) then
          propagateOwnership edges fuel e.target (parentEffective * directStake e / 100)
            (addEff acc e.target (parentEffective * directStake e / 100))
        else acc)
      nodes

/-- Nodes paired with their array positions (`enumNodes 0 l` enumerates `l`).
JS `roots.forEach(root => { root.effectiveOwnership = 100; ... })` mutates the
filtered node objects, i.e. the array entries at the filtered positions. -/
def enumNodes : Nat → List DiagramNode → List (Nat × DiagramNode)
  | _, [] => []
  | i, n :: ns => (i, n) :: enumNodes (i + 1) ns

/-- Overwrite `effectiveOwnership := 100` at array position `i`
(the JS mutation `root.effectiveOwnership = 100`). -/
def setEffIdx : List DiagramNode → Nat → List DiagramNode
  | [], _ => []
  | n :: ns, 0 => { n with effectiveOwnership := some 100 } :: ns
  | n :: ns, i + 1 => n :: setEffIdx ns i

/-- `calculateEffectiveOwnership(nodes, edges)`: find the roots (nodes that
are never the target of any edge), set each root's effective ownership to
100 and propagate from it. -/
def calculateEffectiveOwnership (nodes : List DiagramNode)
    (edges : List DiagramEdge) : List DiagramNode :=
  let roots := (enumNodes 0 nodes).filter
    (fun p => !(edges.any (fun e => decide (e.target = p.2.id))))
  roots.foldl
    (fun acc p =>
      propagateOwnership edges (edges.length + 1) p.2.id 100 (setEffIdx acc p.1))
    nodes

/-- A record of the flat parent-reference input form of
`loadFlatEntityList(entities)`: `{id, parentId?, ownershipPercentage?, ...}`
plus the descriptive fields the sample data carries.  `effectiveOwnership`
is a computed output field ("absent until computed", spec §3) and is not
part of the input form. -/
structure FlatEntity where
  id : String
  parentId : Option String := none
  label : String
  entityType : Option String := none
  taxResidency : Option String := none
  localCurrency : Option String := none
  citRate : Option ℚ := none
  status : Option EntityStatus := none
  region : Option String := none
  pillarTwoStatus : Option PillarTwoStatus := none
  ownershipPercentage : Option ℚ := none
deriving DecidableEq, Repr

/-- The node pushed for an entity: `{...ent, dimension: {width: 220, height: 100}}`. -/
def flatNode (ent : FlatEntity) : DiagramNode :=
  { id := ent.id
    label := ent.label
    entityType := ent.entityType
    taxResidency := ent.taxResidency
    localCurrency := ent.localCurrency
    citRate := ent.citRate
    status := ent.status
    region := ent.region
    pillarTwoStatus := ent.pillarTwoStatus
    dimension := some ⟨220, 100⟩ }

/-- The template-literal edge label `` `${ent.ownershipPercentage}%` ``. -/
def ownLabel : Option ℚ → String
  | some q => toString q ++ "%"
  | none => "undefined%"

/-- The edges synthesized from parent references: one edge per entity with a
truthy `parentId` (JS `if (ent.parentId)`: `undefined` and `""` are falsy),
with the deterministic id `` `e-${ent.parentId}-${ent.id}` ``. -/
def flatEdges (entities : List FlatEntity) : List DiagramEdge :=
  entities.filterMap (fun ent =>
    ent.parentId.bind (fun pid =>
      if pid = "" then none
      else some
        { id := "e-" ++ pid ++ "-" ++ ent.id
          source := pid
          target := ent.id
          label := some (ownLabel ent.ownershipPercentage)
          ownershipPercentage := ent.ownershipPercentage }))

/-- `loadFlatEntityList(entities)`: map entities to nodes, synthesize edges
from parent references, run the ownership propagation, then store nodes and
edges.  (Note: unlike `loadDiagram`, this does not touch `selectedNodeId`
or `highlightedPath`.) -/
def loadFlatEntityList (st : DiagramState) (entities : List FlatEntity) :
    DiagramState :=
  let nodes := entities.map flatNode
  let edges := flatEdges entities
  { st with nodes := calculateEffectiveOwnership nodes edges, edges := edges }

/-! ### Specification-side path vocabulary for the ownership claims

The spec describes the computed value as "the sum, over every path from a
root to the node, of 100 times the product of (stake/100) along the path's
edges".  The following definitions formalize that wording directly: a path
is a non-empty chain of edges of the edge list, linked source-to-target. -/

/-- Follow a candidate chain of edges starting at `a`; returns the endpoint
when consecutive edges link up (source of each edge = endpoint so far). -/
def chainFrom (a : String) : List DiagramEdge → Option String
  | [] => some a
  | e :: l => if e.source = a then chainFrom e.target l else none

/-- All length-`k` lists over the elements of `es`. -/
def listsLen : Nat → List DiagramEdge → List (List DiagramEdge)
  | 0, _ => [[]]
  | k + 1, es => es.flatMap (fun e => (listsLen k es).map (fun l => e :: l))

/-- All paths (non-empty linked chains of edges of `es`) from `a` to `b`.
The enumeration caps the length at `es.length`; on an acyclic edge set every
chain is repetition-free, so no path is longer (`chainLists_complete`). -/
def chainLists (es : List DiagramEdge) (a b : String) :
    List (List DiagramEdge) :=
  ((List.range (es.length + 1)).flatMap (fun k => listsLen k es)).filter
    (fun l => decide (l ≠ [] ∧ chainFrom a l = some b))

/-- The ids of the root nodes: nodes that are never the target of any edge. -/
def rootIdsOf (ns : List DiagramNode) (es : List DiagramEdge) : List String :=
  (ns.filter (fun n => !(es.any (fun e => decide (e.target = n.id))))).map
    (fun n => n.id)

/-- Every path from some root node to `b`. -/
def rootPathsTo (ns : List DiagramNode) (es : List DiagramEdge) (b : String) :
    List (List DiagramEdge) :=
  (rootIdsOf ns es).flatMap (fun r => chainLists es r b)

/-- The spec's value of one path: 100 times the product of (stake/100) along
the path's edges. -/
def pathValue (l : List DiagramEdge) : ℚ :=
  100 * (l.map (fun e => directStake e / 100)).prod

/-- Acyclicity of an edge set, expressed by a topological rank: sources rank
strictly below targets.  (Equivalent to the absence of directed cycles on a
finite edge set; `EdgeAcyclic.no_cycle` below proves the implication used.) -/
def EdgeAcyclic (es : List DiagramEdge) : Prop :=
  ∃ rank : String → ℕ, ∀ e ∈ es, rank e.source < rank e.target

/-- The claim "effective ownership is computed as: roots get exactly 100 and
every non-root node gets the sum over every path from a root to it of
100·∏(stake/100)", quantified as stated over every flat entity list with an
acyclic synthesized edge set. -/
def C1Stated : Prop :=
  ∀ (st : DiagramState) (entities : List FlatEntity),
    EdgeAcyclic (flatEdges entities) →
    ∀ n ∈ (loadFlatEntityList st entities).nodes,
      ((¬ ∃ e ∈ flatEdges entities, e.target = n.id) →
        n.effectiveOwnership = some 100) ∧
      ((∃ e ∈ flatEdges entities, e.target = n.id) →
        n.effectiveOwnership =
          some (((rootPathsTo (entities.map flatNode) (flatEdges entities)
            n.id).map pathValue).sum))

/-! ### Proof infrastructure: propagation deltas

`propagateOwnership` threads a node list through a depth-first fold.  To
reason about it we describe its effect as a pointwise "delta": for each id,
either `none` (node untouched) or `some c` (the node's effective ownership
became `(previous || 0) + c`). -/

/-- Compose two deltas on one id: applying `d₁` then `d₂`. -/
def dAdd : Option ℚ → Option ℚ → Option ℚ
  | d, none => d
  | none, some c => some c
  | some a, some c => some (a + c)

/-- Apply a delta to one node. -/
def applyD (δ : String → Option ℚ) (n : DiagramNode) : DiagramNode :=
  match δ n.id with
  | none => n
  | some c => { n with effectiveOwnership := some (n.effectiveOwnership.getD 0 + c) }

/-- Apply a delta to every node. -/
def applyDelta (ns : List DiagramNode) (δ : String → Option ℚ) :
    List DiagramNode :=
  ns.map (applyD δ)

/-- The delta produced by `propagateOwnership edges fuel parentId v` on a
node list whose ids are `ids`, computed without threading the node list. -/
def propDelta (es : List DiagramEdge) (ids : List String) :
    Nat → String → ℚ → String → Option ℚ
  | 0, _, _ => fun _ => none
  | fuel + 1, parentId, v => fun b =>
    ((es.filter (fun e => e.source = parentId)).foldl
      (fun acc e =>
        if e.target ∈ ids then
          fun b' =>
            dAdd (dAdd (acc b')
              (if e.target = b' then some (v * directStake e / 100) else none))
              (propDelta es ids fuel e.target (v * directStake e / 100) b')
        else acc)
      (fun _ => none)) b

/-- The chains from `p` to `b` of length at most `fuel` that the propagation
actually walks: every edge of the chain must target a present node id. -/
def pathsUpTo (es : List DiagramEdge) (ids : List String) :
    Nat → String → String → List (List DiagramEdge)
  | 0, _, _ => []
  | fuel + 1, p, b =>
    (es.filter (fun e => e.source = p)).flatMap (fun e =>
      if e.target ∈ ids then
        (if e.target = b then [[e]] else []) ++
          (pathsUpTo es ids fuel e.target b).map (fun l => e :: l)
      else [])

/-- The product of (stake/100) along a chain. -/
def wprod (l : List DiagramEdge) : ℚ :=
  (l.map (fun e => directStake e / 100)).prod

/-- Package a list of chains as a delta with factor `v`: no chain means the
node is untouched, otherwise the contributions sum. -/
def listToDelta (v : ℚ) (L : List (List DiagramEdge)) : Option ℚ :=
  if L = [] then none else some (v * (L.map wprod).sum)

/-! ### The validation boundary: `Json`, the zod schemas, `loadDiagram`,
`exportDiagram` -/

/-- A JSON value (the `unknown` input of `loadDiagram` after `JSON.parse`).
Objects are key/value lists; the serializer below emits each key once. -/
inductive Json where
  | null
  | bool (b : Bool)
  | num (q : ℚ)
  | str (s : String)
  | arr (elems : List Json)
  | obj (fields : List (String × Json))

/-- Look a key up in an object's field list (first occurrence). -/
def getKey : List (String × Json) → String → Option Json
  | [], _ => none
  | (k, v) :: rest, key => if k = key then some v else getKey rest key

/-- Parse every element of an array (`z.array(...)` semantics: every
element must parse, the results keep their order). -/
def parseList (f : Json → Option α) : List Json → Option (List α)
  | [] => some []
  | j :: js => do
    let a ← f j
    let as ← parseList f js
    some (a :: as)

/-- `z.string()`. -/
def asStr : Json → Option String
  | .str s => some s
  | _ => none

/-- `z.number()`. -/
def asNum : Json → Option ℚ
  | .num q => some q
  | _ => none

/-- `z.boolean()`. -/
def asBool : Json → Option Bool
  | .bool b => some b
  | _ => none

/-- `z.array(z.string())`. -/
def asStrList : Json → Option (List String)
  | .arr xs => parseList asStr xs
  | _ => none

/-- `z.enum(['Active', 'Liquidation', 'Acquisition'])` on a string. -/
def strToStatus (s : String) : Option EntityStatus :=
  if s = "Active" then some .Active
  else if s = "Liquidation" then some .Liquidation
  else if s = "Acquisition" then some .Acquisition
  else none

/-- `z.enum(['In-Scope', 'Excluded', 'Safe-Harbor', 'Pending', 'N/A'])`. -/
def strToPillar (s : String) : Option PillarTwoStatus :=
  if s = "In-Scope" then some .InScope
  else if s = "Excluded" then some .Excluded
  else if s = "Safe-Harbor" then some .SafeHarbor
  else if s = "Pending" then some .Pending
  else if s = "N/A" then some .NA
  else none

/-- The status enum parser on a JSON value. -/
def asStatus (j : Json) : Option EntityStatus := asStr j >>= strToStatus

/-- The Pillar-Two enum parser on a JSON value. -/
def asPillar (j : Json) : Option PillarTwoStatus := asStr j >>= strToPillar

/-- A required zod field: must be present and well-typed. -/
def reqField (fs : List (String × Json)) (k : String)
    (f : Json → Option α) : Option α :=
  getKey fs k >>= f

/-- An `.optional()` zod field: absent is fine (`none`), present must be
well-typed (`some`), ill-typed fails the parse. -/
def optField (fs : List (String × Json)) (k : String)
    (f : Json → Option α) : Option (Option α) :=
  match getKey fs k with
  | none => some none
  | some v => (f v).map some

/-- `NodeSchema.safeParse` on one element: unknown keys (e.g. `dimension`)
are stripped — the result carries exactly the schema fields. -/
def parseNode (j : Json) : Option DiagramNode :=
  match j with
  | .obj fs => do
    let id ← reqField fs "id" asStr
    let label ← reqField fs "label" asStr
    let color ← optField fs "color" asStr
    let entityType ← optField fs "entityType" asStr
    let jurisdiction ← optField fs "jurisdiction" asStr
    let taxId ← optField fs "taxId" asStr
    let officers ← optField fs "officers" asStrList
    let filingDueDate ← optField fs "filingDueDate" asStr
    let isDraft ← optField fs "isDraft" asBool
    let taxResidency ← optField fs "taxResidency" asStr
    let localCurrency ← optField fs "localCurrency" asStr
    let citRate ← optField fs "citRate" asNum
    let effectiveOwnership ← optField fs "effectiveOwnership" asNum
    let status ← optField fs "status" asStatus
    let region ← optField fs "region" asStr
    let pillarTwoStatus ← optField fs "pillarTwoStatus" asPillar
    some
      { id := id, label := label, color := color, entityType := entityType,
        jurisdiction := jurisdiction, taxId := taxId, officers := officers,
        filingDueDate := filingDueDate, isDraft := isDraft,
        taxResidency := taxResidency, localCurrency := localCurrency,
        citRate := citRate, effectiveOwnership := effectiveOwnership,
        status := status, region := region,
        pillarTwoStatus := pillarTwoStatus, dimension := none }
  | _ => none

/-- `EdgeSchema.safeParse` on one element. -/
def parseEdge (j : Json) : Option DiagramEdge :=
  match j with
  | .obj fs => do
    let id ← reqField fs "id" asStr
    let source ← reqField fs "source" asStr
    let target ← reqField fs "target" asStr
    let label ← optField fs "label" asStr
    let ownershipPercentage ← optField fs "ownershipPercentage" asNum
    let isDraft ← optField fs "isDraft" asBool
    some
      { id := id, source := source, target := target, label := label,
        ownershipPercentage := ownershipPercentage, isDraft := isDraft }
  | _ => none

/-- The typed result of a successful `DiagramSchema.safeParse`. -/
structure DiagramPayload where
  nodes : List DiagramNode
  edges : List DiagramEdge
deriving DecidableEq

/-- `DiagramSchema.safeParse`: an object with array fields `nodes` and
`edges`, every element of which parses; `none` models `success: false`. -/
def parseDiagram (j : Json) : Option DiagramPayload :=
  match j with
  | .obj fs => do
    let nodesJ ← getKey fs "nodes"
    let edgesJ ← getKey fs "edges"
    let nodes ← match nodesJ with
      | .arr xs => parseList parseNode xs
      | _ => none
    let edges ← match edgesJ with
      | .arr xs => parseList parseEdge xs
      | _ => none
    some { nodes := nodes, edges := edges }
  | _ => none

/-- `loadDiagram(json)`: on parse failure the method only logs/alerts and
returns, leaving all signals untouched.  On success it stores the parsed
nodes (with `label: n.label || n.id` — the empty string is falsy — and the
ngx dimension), stores the edges, clears the selection and the highlighted
path. -/
def loadDiagram (st : DiagramState) (json : Json) : DiagramState :=
  match parseDiagram json with
  | none => st
  | some data =>
    { st with
      nodes := data.nodes.map (fun n =>
        { n with
          label := if n.label = "" then n.id else n.label
          dimension := some ⟨200, 90⟩ })
      edges := data.edges
      selectedNodeId := none
      highlightedPath := ∅ }

/-- Serialize one optional field: `JSON.stringify` omits `undefined` fields,
so a `none` field contributes no key. -/
def optE (k : String) (f : α → Json) (v : Option α) : List (String × Json) :=
  match v with
  | none => []
  | some x => [(k, f x)]

/-- Serializer for the ngx `dimension` sub-object. -/
def serDim (d : Dimension) : Json :=
  .obj [("width", .num d.width), ("height", .num d.height)]

/-- The wire string of a status value. -/
def statusStr : EntityStatus → String
  | .Active => "Active"
  | .Liquidation => "Liquidation"
  | .Acquisition => "Acquisition"

/-- The wire string of a Pillar-Two status value. -/
def pillarStr : PillarTwoStatus → String
  | .InScope => "In-Scope"
  | .Excluded => "Excluded"
  | .SafeHarbor => "Safe-Harbor"
  | .Pending => "Pending"
  | .NA => "N/A"

/-- The JSON object fields of a stored node, in declaration order. -/
def nodeEntries (n : DiagramNode) : List (String × Json) :=
  ("id", .str n.id) :: ("label", .str n.label) ::
    (optE "color" .str n.color ++
     optE "entityType" .str n.entityType ++
     optE "jurisdiction" .str n.jurisdiction ++
     optE "taxId" .str n.taxId ++
     optE "officers" (fun l => .arr (l.map .str)) n.officers ++
     optE "filingDueDate" .str n.filingDueDate ++
     optE "isDraft" .bool n.isDraft ++
     optE "taxResidency" .str n.taxResidency ++
     optE "localCurrency" .str n.localCurrency ++
     optE "citRate" .num n.citRate ++
     optE "effectiveOwnership" .num n.effectiveOwnership ++
     optE "status" (fun s => .str (statusStr s)) n.status ++
     optE "region" .str n.region ++
     optE "pillarTwoStatus" (fun s => .str (pillarStr s)) n.pillarTwoStatus ++
     optE "dimension" serDim n.dimension)

/-- JSON value of a stored node. -/
def serializeNode (n : DiagramNode) : Json := .obj (nodeEntries n)

/-- The JSON object fields of a stored edge, in declaration order. -/
def edgeEntries (e : DiagramEdge) : List (String × Json) :=
  ("id", .str e.id) :: ("source", .str e.source) :: ("target", .str e.target) ::
    (optE "label" .str e.label ++
     optE "ownershipPercentage" .num e.ownershipPercentage ++
     optE "isDraft" .bool e.isDraft)

/-- JSON value of a stored edge. -/
def serializeEdge (e : DiagramEdge) : Json := .obj (edgeEntries e)

/-- `exportDiagram()`: `JSON.stringify({nodes, edges}, null, 2)`, modelled as
the JSON tree that parsing the produced string yields. -/
def exportDiagram (st : DiagramState) : Json :=
  .obj [("nodes", .arr (st.nodes.map serializeNode)),
        ("edges", .arr (st.edges.map serializeEdge))]

/-! ### Statement vocabulary for the remaining claims -/

/-- One backwards step of the path tracer: `b` is a parent of `a`
(some edge targets `a` with source `b`). -/
def parentStep (edges : List DiagramEdge) (a b : String) : Prop :=
  ∃ e ∈ edges, e.target = a ∧ e.source = b

/-- `b` is reachable from `a` by repeatedly following edges backwards from
target to source (zero or more steps). -/
def ReachBack (edges : List DiagramEdge) : String → String → Prop :=
  Relation.ReflTransGen (parentStep edges)

/-- The claim "every successful load — explicit or flat form — clears the
selection and the highlighted path", quantified as stated. -/
def C5Stated : Prop :=
  (∀ (st : DiagramState) (j : Json) (d : DiagramPayload),
    parseDiagram j = some d →
      (loadDiagram st j).selectedNodeId = none ∧
      (loadDiagram st j).highlightedPath = ∅) ∧
  (∀ (st : DiagramState) (entities : List FlatEntity),
    (loadFlatEntityList st entities).selectedNodeId = none ∧
    (loadFlatEntityList st entities).highlightedPath = ∅)

/-- The claim "updateNode and selectNode on an id absent from the node set
are each silent no-ops leaving the entire store state unchanged",
quantified as stated. -/
def C6Stated : Prop :=
  ∀ (st : DiagramState) (id : String) (u : NodeUpdate),
    (∀ n ∈ st.nodes, n.id ≠ id) →
      updateNode st id u = st ∧ selectNode st (some id) = st

/-- The claim "the highlighted path set computed on selectNode(s) contains
exactly: s, every node reachable from s by following edges backwards, and
every edge whose target is such a node", quantified as stated over every
graph and selected node. -/
def C7Stated : Prop :=
  ∀ (st : DiagramState) (s x : String),
    x ∈ (selectNode st (some s)).highlightedPath ↔
      (ReachBack st.edges s x ∨
        ∃ e ∈ st.edges, e.id = x ∧ ReachBack st.edges s e.target)

/-- The claim "parsing the export and loading it succeeds and preserves node
ids, node labels and edge id/source/target", quantified as stated over every
stored graph (every `DiagramState` value conforms to the declared schema by
construction). -/
def C8Stated : Prop :=
  ∀ st : DiagramState,
    ∃ d, parseDiagram (exportDiagram st) = some d ∧
      (loadDiagram st (exportDiagram st)).nodes.map (fun n => n.id)
        = st.nodes.map (fun n => n.id) ∧
      (loadDiagram st (exportDiagram st)).nodes.map (fun n => n.label)
        = st.nodes.map (fun n => n.label) ∧
      (loadDiagram st (exportDiagram st)).edges.map
          (fun e => (e.id, e.source, e.target))
        = st.edges.map (fun e => (e.id, e.source, e.target))

/-- The roots with their array positions, exactly as
`calculateEffectiveOwnership` computes them. -/
def rootsList (ns : List DiagramNode) (es : List DiagramEdge) :
    List (Nat × DiagramNode) :=
  (enumNodes 0 ns).filter
    (fun p => !(es.any (fun e => decide (e.target = p.2.id))))

/-- The combined delta a list of processed roots has contributed to id `b`. -/
def totalDelta (es : List DiagramEdge) (ids : List String)
    (R : List (Nat × DiagramNode)) (b : String) : Option ℚ :=
  R.foldl
    (fun d p => dAdd d (propDelta es ids (es.length + 1) p.2.id 100 b)) none

/-- The per-node effect of `calculateEffectiveOwnership` after processing the
roots `R`: roots are overwritten to 100, other nodes receive their combined
delta. -/
def rootTransform (es : List DiagramEdge) (ids : List String)
    (R : List (Nat × DiagramNode)) (n : DiagramNode) : DiagramNode :=
  if n.id ∈ R.map (fun p => p.2.id) then
    { n with effectiveOwnership := some 100 }
  else applyD (totalDelta es ids R) n

/-- JS truthiness of `ent.parentId` (`undefined` and `""` are falsy). -/
def hasTruthyParent (ent : FlatEntity) : Bool :=
  match ent.parentId with
  | none => false
  | some pid => decide (pid ≠ "")

/-! ### Concrete instances used in counterexamples and witnesses -/

/-- A state whose selection is "A" and whose highlighted path is {"A"}. -/
def stSel : DiagramState :=
  { emptyState with selectedNodeId := some "A", highlightedPath := insert "A" ∅ }

/-- A well-formed one-node payload as JSON. -/
def simpleJson : Json :=
  Json.obj [("nodes", Json.arr [Json.obj
      [("id", Json.str "A"), ("label", Json.str "a")]]),
    ("edges", Json.arr [])]

/-- The typed payload `simpleJson` parses to. -/
def simplePayload : DiagramPayload :=
  { nodes := [{ id := "A", label := "a" }], edges := [] }

/-- A payload with two nodes sharing the id "A". -/
def dupJson : Json :=
  Json.obj [("nodes", Json.arr
      [Json.obj [("id", Json.str "A"), ("label", Json.str "x")],
       Json.obj [("id", Json.str "A"), ("label", Json.str "y")]]),
    ("edges", Json.arr [])]

/-- The spec's path-trace example edges: `A→B` (id e1), `B→C` (id e2). -/
def exampleEdges : List DiagramEdge :=
  [{ id := "e1", source := "A", target := "B" },
   { id := "e2", source := "B", target := "C" }]

/-- A flat entity whose parent reference dangles (no entity "ghost"). -/
def entX : FlatEntity :=
  { id := "X", parentId := some "ghost", label := "X",
    ownershipPercentage := some 50 }

/-- A two-entity flat list: root R and child X at a 50% stake (the spec's
flat-list propagation example). -/
def entsRX : List FlatEntity :=
  [{ id := "R", label := "R", ownershipPercentage := some 100 },
   { id := "X", parentId := some "R", label := "X",
     ownershipPercentage := some 50 }]

/-- A state holding one node with an empty label. -/
def stEmptyLabel : DiagramState :=
  { emptyState with nodes := [{ id := "A", label := "" }] }

/-- A state holding one node whose identifier is the empty string
(schema-legal: ids are arbitrary strings). -/
def stEmptyId : DiagramState :=
  { emptyState with nodes := [{ id := "", label := "x" }] }

/-! ## Theorems -/

/-! ### Generic helper lemmas -/

theorem map_id_on {α : Type} (l : List α) (f : α → α)
    (h : ∀ a ∈ l, f a = a) : l.map f = l := by
  induction l with
  | nil => rfl
  | cons a l ih =>
    simp only [List.map_cons, h a (List.mem_cons_self a l)]
    rw [ih (fun b hb => h b (List.mem_cons_of_mem a hb))]

theorem applyStoreOp_preserves (st : DiagramState) (op : StoreOp) :
    (applyStoreOp st op).sandboxMode = st.sandboxMode ∧
    (applyStoreOp st op).originalState = st.originalState := by
  cases op <;> simp [applyStoreOp, addNode, updateNode, removeNode]

theorem applyStoreOps_preserves (ops : List StoreOp) (st : DiagramState) :
    (applyStoreOps st ops).sandboxMode = st.sandboxMode ∧
    (applyStoreOps st ops).originalState = st.originalState := by
  induction ops generalizing st with
  | nil => exact ⟨rfl, rfl⟩
  | cons op ops ih =>
    have h1 := applyStoreOp_preserves st op
    have h2 := ih (applyStoreOp st op)
    simp only [applyStoreOps, List.foldl_cons] at *
    exact ⟨h2.1.trans h1.1, h2.2.trans h1.2⟩

/-! ### C2 — sandbox round trip -/

/-- C2: starting from Live mode, `startSandbox`, any finite sequence of
addNode/updateNode/removeNode operations, then `discardSandbox` restores the
nodes and edges to values equal to those immediately before `startSandbox`,
returns the mode flag to Live and leaves no snapshot. -/
theorem sandbox_discard_roundtrip (st : DiagramState)
    (h : st.sandboxMode = false) (ops : List StoreOp) :
    (discardSandbox (applyStoreOps (startSandbox st) ops)).nodes = st.nodes ∧
    (discardSandbox (applyStoreOps (startSandbox st) ops)).edges = st.edges ∧
    (discardSandbox (applyStoreOps (startSandbox st) ops)).sandboxMode = false ∧
    (discardSandbox (applyStoreOps (startSandbox st) ops)).originalState = none := by
  have hstart : startSandbox st =
      { st with originalState := some (st.nodes, st.edges), sandboxMode := true } := by
    simp [startSandbox, h]
  have hpres := applyStoreOps_preserves ops (startSandbox st)
  have h1 : (applyStoreOps (startSandbox st) ops).sandboxMode = true := by
    rw [hpres.1, hstart]
  have h2 : (applyStoreOps (startSandbox st) ops).originalState =
      some (st.nodes, st.edges) := by
    rw [hpres.2, hstart]
  simp only [discardSandbox, h1, h2]
  exact ⟨trivial, trivial, trivial, trivial⟩

/-- Witness for C2 at a concrete state and operation list. -/
theorem sandbox_discard_roundtrip_witness :
    emptyState.sandboxMode = false ∧
    ((discardSandbox (applyStoreOps (startSandbox emptyState)
        [StoreOp.add { id := "N", label := "n" }])).nodes = emptyState.nodes ∧
     (discardSandbox (applyStoreOps (startSandbox emptyState)
        [StoreOp.add { id := "N", label := "n" }])).edges = emptyState.edges ∧
     (discardSandbox (applyStoreOps (startSandbox emptyState)
        [StoreOp.add { id := "N", label := "n" }])).sandboxMode = false ∧
     (discardSandbox (applyStoreOps (startSandbox emptyState)
        [StoreOp.add { id := "N", label := "n" }])).originalState = none) :=
  ⟨rfl, sandbox_discard_roundtrip emptyState rfl [StoreOp.add { id := "N", label := "n" }]⟩

/-! ### C3 — removeNode cascades -/

/-- C3: removing a node present in the graph deletes it, cascades the
deletion to every incident edge, clears the selection when it pointed at the
removed node, and leaves all other nodes, edges and the highlighted path
unchanged (the filters keep exactly the non-matching entries in order). -/
theorem removeNode_spec (st : DiagramState) (nid : String)
    (h : ∃ m ∈ st.nodes, m.id = nid) :
    (removeNode st nid).nodes = st.nodes.filter (fun m => decide (m.id ≠ nid)) ∧
    (∀ m ∈ (removeNode st nid).nodes, m.id ≠ nid) ∧
    (removeNode st nid).edges =
      st.edges.filter (fun e => decide (e.source ≠ nid) && decide (e.target ≠ nid)) ∧
    (∀ e ∈ (removeNode st nid).edges, e.source ≠ nid ∧ e.target ≠ nid) ∧
    (removeNode st nid).selectedNodeId =
      (if st.selectedNodeId = some nid then none else st.selectedNodeId) ∧
    (removeNode st nid).highlightedPath = st.highlightedPath := by
  refine ⟨rfl, ?_, rfl, ?_, rfl, rfl⟩
  · intro m hm
    simp only [removeNode, List.mem_filter, decide_eq_true_eq] at hm
    exact hm.2
  · intro e he
    simp only [removeNode, List.mem_filter, Bool.and_eq_true, decide_eq_true_eq] at he
    exact he.2

/-- Witness for C3 at a concrete one-node graph. -/
theorem removeNode_spec_witness :
    (∃ m ∈ (addNode emptyState { id := "A", label := "a" }).nodes, m.id = "A") ∧
    ((removeNode (addNode emptyState { id := "A", label := "a" }) "A").nodes =
      (addNode emptyState { id := "A", label := "a" }).nodes.filter
        (fun m => decide (m.id ≠ "A")) ∧
     (∀ m ∈ (removeNode (addNode emptyState { id := "A", label := "a" }) "A").nodes,
        m.id ≠ "A") ∧
     (removeNode (addNode emptyState { id := "A", label := "a" }) "A").edges =
      (addNode emptyState { id := "A", label := "a" }).edges.filter
        (fun e => decide (e.source ≠ "A") && decide (e.target ≠ "A")) ∧
     (∀ e ∈ (removeNode (addNode emptyState { id := "A", label := "a" }) "A").edges,
        e.source ≠ "A" ∧ e.target ≠ "A") ∧
     (removeNode (addNode emptyState { id := "A", label := "a" }) "A").selectedNodeId =
      (if (addNode emptyState { id := "A", label := "a" }).selectedNodeId = some "A"
        then none
        else (addNode emptyState { id := "A", label := "a" }).selectedNodeId) ∧
     (removeNode (addNode emptyState { id := "A", label := "a" }) "A").highlightedPath =
      (addNode emptyState { id := "A", label := "a" }).highlightedPath) :=
  ⟨by decide, removeNode_spec (addNode emptyState { id := "A", label := "a" }) "A"
    (by decide)⟩

/-! ### C9 — rejected loads leave the state intact -/

/-- C9: when the payload fails schema validation, `loadDiagram` leaves the
whole prior state (nodes, edges, selection, highlighted path, sandbox
fields) exactly as it was; nothing of the rejected payload is applied. -/
theorem loadDiagram_reject_preserves (st : DiagramState) (j : Json)
    (h : parseDiagram j = none) : loadDiagram st j = st := by
  simp [loadDiagram, h]

/-- Witness for C9: a payload that fails validation (a bare JSON null). -/
theorem loadDiagram_reject_preserves_witness :
    parseDiagram Json.null = none ∧ loadDiagram emptyState Json.null = emptyState :=
  ⟨rfl, loadDiagram_reject_preserves emptyState Json.null rfl⟩

/-! ### C10 — addNode appends unconditionally -/

/-- C10: `addNode` unconditionally appends the node (with the ngx dimension
set) at the end of the node sequence, leaves edges, selection and highlighted
path unchanged, and performs no identifier-uniqueness check: when a node with
the same id already exists, the id occurs (at least) twice afterwards, so the
node-id list is no longer duplicate-free. -/
theorem addNode_spec (st : DiagramState) (n : DiagramNode) :
    (addNode st n).nodes = st.nodes ++ [{ n with dimension := some ⟨200, 90⟩ }] ∧
    (addNode st n).edges = st.edges ∧
    (addNode st n).selectedNodeId = st.selectedNodeId ∧
    (addNode st n).highlightedPath = st.highlightedPath ∧
    ((∃ m ∈ st.nodes, m.id = n.id) →
      2 ≤ ((addNode st n).nodes.map (fun m => m.id)).count n.id ∧
      ¬ ((addNode st n).nodes.map (fun m => m.id)).Nodup) := by
  refine ⟨rfl, rfl, rfl, rfl, fun ⟨m, hm, hid⟩ => ?_⟩
  have hmem : n.id ∈ st.nodes.map (fun m => m.id) :=
    List.mem_map.mpr ⟨m, hm, hid⟩
  have hcount : 1 ≤ (st.nodes.map (fun m => m.id)).count n.id :=
    List.count_pos_iff.mpr hmem
  have h2 : 2 ≤ ((addNode st n).nodes.map (fun m => m.id)).count n.id := by
    simp only [addNode, List.map_append, List.count_append, List.map_cons,
      List.map_nil]
    have hone : List.count n.id [n.id] = 1 := by simp
    omega
  refine ⟨h2, fun hnd => ?_⟩
  have := List.nodup_iff_count_le_one.mp hnd n.id
  omega

/-- Witness for C10's conditional clause at a concrete duplicate insertion. -/
theorem addNode_spec_witness :
    (∃ m ∈ (addNode emptyState { id := "A", label := "a" }).nodes, m.id = "A") ∧
    (2 ≤ ((addNode (addNode emptyState { id := "A", label := "a" })
        { id := "A", label := "b" }).nodes.map (fun m => m.id)).count "A" ∧
      ¬ ((addNode (addNode emptyState { id := "A", label := "a" })
        { id := "A", label := "b" }).nodes.map (fun m => m.id)).Nodup) :=
  ⟨by decide,
    (addNode_spec (addNode emptyState { id := "A", label := "a" })
      { id := "A", label := "b" }).2.2.2.2 (by decide)⟩

/-! ### C5 — what a successful load replaces and clears -/

/-- C5 counterexample: the claim "every successful load — explicit or flat
form — clears the selection and the highlighted path" is false: the flat
form leaves both untouched (here a state with selection "A" and highlighted
path {"A"} keeps them across `loadFlatEntityList`). -/
theorem C5Stated_false : ¬ C5Stated := by
  intro h
  have := (h.2 stSel []).1
  simp [loadFlatEntityList, stSel, emptyState] at this

/-- C5 (amended): `loadDiagram` on a payload that validates replaces the
nodes (normalized with label default and ngx dimension) and edges in one
state update and clears both the selection and the highlighted path;
`loadFlatEntityList` replaces the nodes (after ownership propagation) and
the synthesized edges in one state update but leaves the selection and the
highlighted path as they were. -/
theorem load_replaces_spec :
    (∀ (st : DiagramState) (j : Json) (d : DiagramPayload),
      parseDiagram j = some d →
        loadDiagram st j =
          { st with
            nodes := d.nodes.map (fun n =>
              { n with
                label := if n.label = "" then n.id else n.label
                dimension := some ⟨200, 90⟩ })
            edges := d.edges
            selectedNodeId := none
            highlightedPath := ∅ }) ∧
    (∀ (st : DiagramState) (entities : List FlatEntity),
      loadFlatEntityList st entities =
        { st with
          nodes := calculateEffectiveOwnership (entities.map flatNode)
            (flatEdges entities)
          edges := flatEdges entities }) := by
  constructor
  · intro st j d h
    simp [loadDiagram, h]
  · intro st entities
    rfl

/-- Witness for C5 (amended) at a concrete payload. -/
theorem load_replaces_spec_witness :
    parseDiagram simpleJson = some simplePayload ∧
    loadDiagram emptyState simpleJson =
      { emptyState with
        nodes := simplePayload.nodes.map (fun n =>
          { n with
            label := if n.label = "" then n.id else n.label
            dimension := some ⟨200, 90⟩ })
        edges := simplePayload.edges
        selectedNodeId := none
        highlightedPath := ∅ } :=
  ⟨by rfl, load_replaces_spec.1 emptyState simpleJson simplePayload (by rfl)⟩

/-! ### C6 — operations on an unknown node id -/

/-- C6 counterexample: the claim "updateNode and selectNode on an unknown id
are each silent no-ops leaving the entire store state unchanged" is false
for `selectNode`: on the empty graph, `selectNode "g"` sets the selection
cursor to "g" (and the highlighted path to {"g"}). -/
theorem C6Stated_false : ¬ C6Stated := by
  intro h
  have := (h emptyState "g" {} (by intro n hn; simp [emptyState] at hn)).2
  have hsel := congrArg DiagramState.selectedNodeId this
  simp [selectNode, emptyState] at hsel

/-- C6 (amended): `updateNode` on an id absent from the node set leaves the
whole state unchanged and raises no error; `selectNode` on any non-null id
(present or not) raises no error and leaves nodes and edges unchanged, but
stores that id as the selection and, when the id is non-empty, recomputes
the highlighted path as the backwards trace from it — a JS-falsy
empty-string id clears the highlighted path instead. -/
theorem unknown_id_ops_spec :
    (∀ (st : DiagramState) (id : String) (u : NodeUpdate),
      (∀ n ∈ st.nodes, n.id ≠ id) → updateNode st id u = st) ∧
    (∀ (st : DiagramState) (id : String),
      selectNode st (some id) =
        { st with
          selectedNodeId := some id
          highlightedPath :=
            if id = "" then ∅ else tracePathToRoot st.edges id }) := by
  constructor
  · intro st id u h
    have hmap : st.nodes.map (fun n => if n.id = id then applyNodeUpdate n u else n)
        = st.nodes := by
      apply map_id_on
      intro n hn
      simp [h n hn]
    simp only [updateNode, hmap]
  · intro st id
    by_cases hid : id = "" <;> simp [selectNode, hid]

/-- Witness for C6 (amended) at a concrete state and unknown id. -/
theorem unknown_id_ops_spec_witness :
    (∀ n ∈ emptyState.nodes, n.id ≠ "g") ∧
    updateNode emptyState "g" {} = emptyState ∧
    selectNode emptyState (some "g") =
      { emptyState with
        selectedNodeId := some "g"
        highlightedPath :=
          if "g" = "" then ∅ else tracePathToRoot emptyState.edges "g" } :=
  ⟨by intro n hn; simp [emptyState] at hn,
   unknown_id_ops_spec.1 emptyState "g" {} (by intro n hn; simp [emptyState] at hn),
   unknown_id_ops_spec.2 emptyState "g"⟩

/-! ### C4 — duplicate node identifiers pass the validator -/

/-- C4: the validator does not reject duplicate node identifiers.  The
schema only checks field shapes, so a payload with two nodes that share the
id "A" is accepted by `loadDiagram` and both nodes are stored: the claimed
invariant "no two stored nodes share an identifier" is violated by the code. -/
theorem loadDiagram_accepts_duplicate_ids :
    ((loadDiagram emptyState dupJson).nodes.map (fun n => n.id)) = ["A", "A"] ∧
    ¬ (((loadDiagram emptyState dupJson).nodes.map (fun n => n.id)).Nodup) := by
  constructor
  · rfl
  · decide

/-! ### C7 — path tracer correctness -/

theorem mem_foldl_insert (L : List DiagramEdge) (init : Finset String)
    (x : String) :
    x ∈ L.foldl (fun p e => insert e.id p) init ↔
      x ∈ init ∨ ∃ e ∈ L, e.id = x := by
  induction L generalizing init with
  | nil => simp
  | cons e L ih =>
    rw [List.foldl_cons, ih]
    simp only [Finset.mem_insert, List.mem_cons]
    constructor
    · rintro ((rfl | hi) | ⟨f, hf, rfl⟩)
      · exact Or.inr ⟨e, Or.inl rfl, rfl⟩
      · exact Or.inl hi
      · exact Or.inr ⟨f, Or.inr hf, rfl⟩
    · rintro (hi | ⟨f, rfl | hf, rfl⟩)
      · exact Or.inl (Or.inr hi)
      · exact Or.inl (Or.inl rfl)
      · exact Or.inr ⟨f, hf, rfl⟩

theorem traceLoop_master (edges : List DiagramEdge) (s : String) :
    ∀ (queue : List String) (visited path : Finset String),
      (∀ v ∈ visited, ReachBack edges s v) →
      (∀ q ∈ queue, ReachBack edges s q) →
      (∀ x, x ∈ path ↔ x ∈ visited ∨ ∃ e ∈ edges, e.id = x ∧ e.target ∈ visited) →
      (∀ v ∈ visited, ∀ b, parentStep edges v b → b ∈ visited ∨ b ∈ queue) →
      (s ∈ visited ∨ s ∈ queue) →
      ∀ x, x ∈ traceLoop edges queue visited path ↔
        (ReachBack edges s x ∨ ∃ e ∈ edges, e.id = x ∧ ReachBack edges s e.target) := by
  intro queue visited path
  induction queue, visited, path using traceLoop.induct edges with
  | case1 visited path =>
    intro hv _ hpath hclosed hstart x
    have hs : s ∈ visited := by
      rcases hstart with h | h
      · exact h
      · simp at h
    have hvis : ∀ y, ReachBack edges s y → y ∈ visited := by
      intro y hy
      induction hy with
      | refl => exact hs
      | tail _ hbc ih =>
        rcases hclosed _ ih _ hbc with h | h
        · exact h
        · simp at h
    have hiff : ∀ y, y ∈ visited ↔ ReachBack edges s y :=
      fun y => ⟨hv y, hvis y⟩
    rw [traceLoop]
    rw [hpath x]
    simp only [hiff]
  | case2 c queue visited path hc ih =>
    intro hv hq hpath hclosed hstart x
    rw [traceLoop, if_pos hc]
    apply ih hv (fun q hq' => hq q (List.mem_cons_of_mem c hq')) hpath
    · intro v hv' b hstep
      rcases hclosed v hv' b hstep with h | h
      · exact Or.inl h
      · rcases List.mem_cons.mp h with rfl | h
        · exact Or.inl hc
        · exact Or.inr h
    · rcases hstart with h | h
      · exact Or.inl h
      · rcases List.mem_cons.mp h with rfl | h
        · exact Or.inl hc
        · exact Or.inr h
  | case3 c queue visited path hc pe ih =>
    intro hv hq hpath hclosed hstart x
    have hcreach : ReachBack edges s c := hq c (List.mem_cons_self c queue)
    have hpe : pe = edges.filter (fun e => e.target = c) := rfl
    rw [traceLoop, if_neg hc]
    apply ih
    · intro v hv'
      rcases Finset.mem_insert.mp hv' with rfl | hv'
      · exact hcreach
      · exact hv v hv'
    · intro q hq'
      rw [hpe] at hq'
      rcases List.mem_append.mp hq' with h | h
      · exact hq q (List.mem_cons_of_mem c h)
      · obtain ⟨e, he, rfl⟩ := List.mem_map.mp h
        have hef := List.mem_filter.mp he
        exact Relation.ReflTransGen.tail hcreach
          ⟨e, hef.1, by simpa using hef.2, rfl⟩
    · intro x'
      rw [hpe, mem_foldl_insert]
      simp only [Finset.mem_insert, hpath x', List.mem_filter,
        decide_eq_true_eq]
      constructor
      · rintro ((rfl | (h | ⟨e, he, rfl, ht⟩)) | ⟨e, ⟨he, htc⟩, rfl⟩)
        · exact Or.inl (Or.inl rfl)
        · exact Or.inl (Or.inr h)
        · exact Or.inr ⟨e, he, rfl, Or.inr ht⟩
        · exact Or.inr ⟨e, he, rfl, Or.inl htc⟩
      · rintro ((rfl | h) | ⟨e, he, rfl, (htc | ht)⟩)
        · exact Or.inl (Or.inl rfl)
        · exact Or.inl (Or.inr (Or.inl h))
        · exact Or.inr ⟨e, ⟨he, htc⟩, rfl⟩
        · exact Or.inl (Or.inr (Or.inr ⟨e, he, rfl, ht⟩))
    · intro v hv' b hstep
      rw [hpe]
      rcases Finset.mem_insert.mp hv' with rfl | hv'
      · obtain ⟨e, he, htgt, rfl⟩ := hstep
        refine Or.inr (List.mem_append.mpr (Or.inr ?_))
        exact List.mem_map.mpr ⟨e, List.mem_filter.mpr ⟨he, by simpa using htgt⟩, rfl⟩
      · rcases hclosed v hv' b hstep with h | h
        · exact Or.inl (Finset.mem_insert_of_mem h)
        · rcases List.mem_cons.mp h with rfl | h
          · exact Or.inl (Finset.mem_insert_self b visited)
          · exact Or.inr (List.mem_append.mpr (Or.inl h))
    · rw [hpe]
      rcases hstart with h | h
      · exact Or.inl (Finset.mem_insert_of_mem h)
      · rcases List.mem_cons.mp h with rfl | h
        · exact Or.inl (Finset.mem_insert_self s visited)
        · exact Or.inr (List.mem_append.mpr (Or.inl h))

/-- C7 counterexample: the claim fails for the selected node id `""`.  The
empty string is JS-falsy, so `selectNode("")` clears the highlighted path
instead of tracing — on a graph holding a node with the schema-legal id
`""`, the computed path is `∅`, which does not contain the selected id as
the claim demands. -/
theorem C7Stated_false : ¬ C7Stated := by
  intro h
  have hmem : "" ∈ (selectNode stEmptyId (some "")).highlightedPath :=
    (h stEmptyId "" "").mpr (Or.inl Relation.ReflTransGen.refl)
  simp [selectNode, stEmptyId, emptyState] at hmem

/-- C7 (amended): on `selectNode` with a non-empty id the highlighted path
is `tracePathToRoot` of that id, and that set contains exactly: the start
id, every id reachable from it by repeatedly following edges backwards from
target to source, and the id of every edge whose target is such a visited
id; on the JS-falsy empty-string id the highlighted path is cleared to `∅`
instead.  Concretely, with edges `A→B` (e1) and `B→C` (e2), selecting "C"
yields {C, e2, B, e1, A} and selecting "A" yields {A}. -/
theorem tracePathToRoot_spec :
    (∀ (st : DiagramState) (s : String), s ≠ "" →
      (selectNode st (some s)).highlightedPath = tracePathToRoot st.edges s) ∧
    (∀ st : DiagramState, (selectNode st (some "")).highlightedPath = ∅) ∧
    (∀ (edges : List DiagramEdge) (s x : String),
      x ∈ tracePathToRoot edges s ↔
        (ReachBack edges s x ∨ ∃ e ∈ edges, e.id = x ∧ ReachBack edges s e.target)) ∧
    tracePathToRoot exampleEdges "C" = {"C", "e2", "B", "e1", "A"} ∧
    tracePathToRoot exampleEdges "A" = {"A"} := by
  refine ⟨fun st s hs => by simp [selectNode, hs], fun st => by simp [selectNode],
    fun edges s x => ?_, ?_, ?_⟩
  · apply traceLoop_master edges s [s] ∅ ∅
    · intro v hv
      simp at hv
    · intro q hq
      rcases List.mem_cons.mp hq with rfl | h
      · exact Relation.ReflTransGen.refl
      · simp at h
    · intro y
      simp
    · intro v hv
      simp at hv
    · exact Or.inr (List.mem_cons_self s [])
  · simp +decide [tracePathToRoot, exampleEdges, traceLoop]
  · simp +decide [tracePathToRoot, exampleEdges, traceLoop]

/-- Witness for C7 (amended) at a concrete state and non-empty id. -/
theorem tracePathToRoot_spec_witness :
    ("A" : String) ≠ "" ∧
    (selectNode emptyState (some "A")).highlightedPath =
      tracePathToRoot emptyState.edges "A" :=
  ⟨by decide, tracePathToRoot_spec.1 emptyState "A" (by decide)⟩

/-! ### C8 — export/load round trip -/

theorem getKey_optE_ne {α : Type} {k' k : String} (f : α → Json) (v : Option α)
    (rest : List (String × Json)) (h : ¬ (k' = k)) :
    getKey (optE k' f v ++ rest) k = getKey rest k := by
  cases v <;> simp [optE, getKey, h]

theorem getKey_optE_ne_nil {α : Type} {k' k : String} (f : α → Json)
    (v : Option α) (h : ¬ (k' = k)) :
    getKey (optE k' f v) k = none := by
  cases v <;> simp [optE, getKey, h]

theorem getKey_optE_some {α : Type} (k : String) (f : α → Json) (a : α)
    (rest : List (String × Json)) :
    getKey (optE k f (some a) ++ rest) k = some (f a) := by
  simp [optE, getKey]

theorem getKey_optE_none {α : Type} (k : String) (f : α → Json)
    (rest : List (String × Json)) :
    getKey (optE k f none ++ rest) k = getKey rest k := by
  simp [optE]

theorem getKey_optE_some_nil {α : Type} (k : String) (f : α → Json) (a : α) :
    getKey (optE k f (some a)) k = some (f a) := by
  simp [optE, getKey]

theorem getKey_optE_none_nil {α : Type} (k : String) (f : α → Json) :
    getKey (optE k f none) k = none := by
  simp [optE, getKey]

theorem nodeEntries_id (n : DiagramNode) :
    getKey (nodeEntries n) "id" = some (Json.str n.id) := rfl

theorem nodeEntries_label (n : DiagramNode) :
    getKey (nodeEntries n) "label" = some (Json.str n.label) := rfl

theorem nodeEntries_color (n : DiagramNode) :
    getKey (nodeEntries n) "color" = n.color.map Json.str := by
  cases h : n.color <;>
    simp [nodeEntries, getKey, List.append_assoc, getKey_optE_ne,
      getKey_optE_ne_nil, getKey_optE_some, getKey_optE_none,
      getKey_optE_some_nil, getKey_optE_none_nil, h]

theorem nodeEntries_entityType (n : DiagramNode) :
    getKey (nodeEntries n) "entityType" = n.entityType.map Json.str := by
  cases h : n.entityType <;>
    simp [nodeEntries, getKey, List.append_assoc, getKey_optE_ne,
      getKey_optE_ne_nil, getKey_optE_some, getKey_optE_none,
      getKey_optE_some_nil, getKey_optE_none_nil, h]

theorem nodeEntries_jurisdiction (n : DiagramNode) :
    getKey (nodeEntries n) "jurisdiction" = n.jurisdiction.map Json.str := by
  cases h : n.jurisdiction <;>
    simp [nodeEntries, getKey, List.append_assoc, getKey_optE_ne,
      getKey_optE_ne_nil, getKey_optE_some, getKey_optE_none,
      getKey_optE_some_nil, getKey_optE_none_nil, h]

theorem nodeEntries_taxId (n : DiagramNode) :
    getKey (nodeEntries n) "taxId" = n.taxId.map Json.str := by
  cases h : n.taxId <;>
    simp [nodeEntries, getKey, List.append_assoc, getKey_optE_ne,
      getKey_optE_ne_nil, getKey_optE_some, getKey_optE_none,
      getKey_optE_some_nil, getKey_optE_none_nil, h]

theorem nodeEntries_officers (n : DiagramNode) :
    getKey (nodeEntries n) "officers" =
      n.officers.map (fun l => Json.arr (l.map Json.str)) := by
  cases h : n.officers <;>
    simp [nodeEntries, getKey, List.append_assoc, getKey_optE_ne,
      getKey_optE_ne_nil, getKey_optE_some, getKey_optE_none,
      getKey_optE_some_nil, getKey_optE_none_nil, h]

theorem nodeEntries_filingDueDate (n : DiagramNode) :
    getKey (nodeEntries n) "filingDueDate" = n.filingDueDate.map Json.str := by
  cases h : n.filingDueDate <;>
    simp [nodeEntries, getKey, List.append_assoc, getKey_optE_ne,
      getKey_optE_ne_nil, getKey_optE_some, getKey_optE_none,
      getKey_optE_some_nil, getKey_optE_none_nil, h]

theorem nodeEntries_isDraft (n : DiagramNode) :
    getKey (nodeEntries n) "isDraft" = n.isDraft.map Json.bool := by
  cases h : n.isDraft <;>
    simp [nodeEntries, getKey, List.append_assoc, getKey_optE_ne,
      getKey_optE_ne_nil, getKey_optE_some, getKey_optE_none,
      getKey_optE_some_nil, getKey_optE_none_nil, h]

theorem nodeEntries_taxResidency (n : DiagramNode) :
    getKey (nodeEntries n) "taxResidency" = n.taxResidency.map Json.str := by
  cases h : n.taxResidency <;>
    simp [nodeEntries, getKey, List.append_assoc, getKey_optE_ne,
      getKey_optE_ne_nil, getKey_optE_some, getKey_optE_none,
      getKey_optE_some_nil, getKey_optE_none_nil, h]

theorem nodeEntries_localCurrency (n : DiagramNode) :
    getKey (nodeEntries n) "localCurrency" = n.localCurrency.map Json.str := by
  cases h : n.localCurrency <;>
    simp [nodeEntries, getKey, List.append_assoc, getKey_optE_ne,
      getKey_optE_ne_nil, getKey_optE_some, getKey_optE_none,
      getKey_optE_some_nil, getKey_optE_none_nil, h]

theorem nodeEntries_citRate (n : DiagramNode) :
    getKey (nodeEntries n) "citRate" = n.citRate.map Json.num := by
  cases h : n.citRate <;>
    simp [nodeEntries, getKey, List.append_assoc, getKey_optE_ne,
      getKey_optE_ne_nil, getKey_optE_some, getKey_optE_none,
      getKey_optE_some_nil, getKey_optE_none_nil, h]

theorem nodeEntries_effectiveOwnership (n : DiagramNode) :
    getKey (nodeEntries n) "effectiveOwnership" =
      n.effectiveOwnership.map Json.num := by
  cases h : n.effectiveOwnership <;>
    simp [nodeEntries, getKey, List.append_assoc, getKey_optE_ne,
      getKey_optE_ne_nil, getKey_optE_some, getKey_optE_none,
      getKey_optE_some_nil, getKey_optE_none_nil, h]

theorem nodeEntries_status (n : DiagramNode) :
    getKey (nodeEntries n) "status" =
      n.status.map (fun s => Json.str (statusStr s)) := by
  cases h : n.status <;>
    simp [nodeEntries, getKey, List.append_assoc, getKey_optE_ne,
      getKey_optE_ne_nil, getKey_optE_some, getKey_optE_none,
      getKey_optE_some_nil, getKey_optE_none_nil, h]

theorem nodeEntries_region (n : DiagramNode) :
    getKey (nodeEntries n) "region" = n.region.map Json.str := by
  cases h : n.region <;>
    simp [nodeEntries, getKey, List.append_assoc, getKey_optE_ne,
      getKey_optE_ne_nil, getKey_optE_some, getKey_optE_none,
      getKey_optE_some_nil, getKey_optE_none_nil, h]

theorem nodeEntries_pillarTwoStatus (n : DiagramNode) :
    getKey (nodeEntries n) "pillarTwoStatus" =
      n.pillarTwoStatus.map (fun s => Json.str (pillarStr s)) := by
  cases h : n.pillarTwoStatus <;>
    simp [nodeEntries, getKey, List.append_assoc, getKey_optE_ne,
      getKey_optE_ne_nil, getKey_optE_some, getKey_optE_none,
      getKey_optE_some_nil, getKey_optE_none_nil, h]

theorem parseList_asStr_round (l : List String) :
    parseList asStr (l.map Json.str) = some l := by
  induction l with
  | nil => rfl
  | cons a l ih => simp [parseList, asStr, ih]

theorem asStrList_round (l : List String) :
    asStrList (Json.arr (l.map Json.str)) = some l := by
  simp [asStrList, parseList_asStr_round]

theorem asStatus_round (s : EntityStatus) :
    asStatus (Json.str (statusStr s)) = some s := by
  cases s <;> rfl

theorem asPillar_round (s : PillarTwoStatus) :
    asPillar (Json.str (pillarStr s)) = some s := by
  cases s <;> rfl

theorem optField_round {α : Type} (fs : List (String × Json)) (k : String)
    (f : α → Json) (g : Json → Option α) (v : Option α)
    (hk : getKey fs k = v.map f) (hg : ∀ a, g (f a) = some a) :
    optField fs k g = some v := by
  cases v <;> simp [optField, hk, hg]

theorem parseNode_serializeNode (n : DiagramNode) :
    parseNode (serializeNode n) = some { n with dimension := none } := by
  have hcolor := optField_round (nodeEntries n) "color" Json.str asStr n.color
    (nodeEntries_color n) (fun a => rfl)
  have hentityType := optField_round (nodeEntries n) "entityType" Json.str asStr
    n.entityType (nodeEntries_entityType n) (fun a => rfl)
  have hjurisdiction := optField_round (nodeEntries n) "jurisdiction" Json.str
    asStr n.jurisdiction (nodeEntries_jurisdiction n) (fun a => rfl)
  have htaxId := optField_round (nodeEntries n) "taxId" Json.str asStr n.taxId
    (nodeEntries_taxId n) (fun a => rfl)
  have hofficers := optField_round (nodeEntries n) "officers"
    (fun l => Json.arr (l.map Json.str)) asStrList n.officers
    (nodeEntries_officers n) asStrList_round
  have hfiling := optField_round (nodeEntries n) "filingDueDate" Json.str asStr
    n.filingDueDate (nodeEntries_filingDueDate n) (fun a => rfl)
  have hisDraft := optField_round (nodeEntries n) "isDraft" Json.bool asBool
    n.isDraft (nodeEntries_isDraft n) (fun a => rfl)
  have htaxRes := optField_round (nodeEntries n) "taxResidency" Json.str asStr
    n.taxResidency (nodeEntries_taxResidency n) (fun a => rfl)
  have hlocalCur := optField_round (nodeEntries n) "localCurrency" Json.str asStr
    n.localCurrency (nodeEntries_localCurrency n) (fun a => rfl)
  have hcitRate := optField_round (nodeEntries n) "citRate" Json.num asNum
    n.citRate (nodeEntries_citRate n) (fun a => rfl)
  have heff := optField_round (nodeEntries n) "effectiveOwnership" Json.num asNum
    n.effectiveOwnership (nodeEntries_effectiveOwnership n) (fun a => rfl)
  have hstatus := optField_round (nodeEntries n) "status"
    (fun s => Json.str (statusStr s)) asStatus n.status
    (nodeEntries_status n) asStatus_round
  have hregion := optField_round (nodeEntries n) "region" Json.str asStr n.region
    (nodeEntries_region n) (fun a => rfl)
  have hpillar := optField_round (nodeEntries n) "pillarTwoStatus"
    (fun s => Json.str (pillarStr s)) asPillar n.pillarTwoStatus
    (nodeEntries_pillarTwoStatus n) asPillar_round
  simp [parseNode, serializeNode, reqField, nodeEntries_id, nodeEntries_label,
    asStr, hcolor, hentityType, hjurisdiction, htaxId, hofficers, hfiling,
    hisDraft, htaxRes, hlocalCur, hcitRate, heff, hstatus, hregion, hpillar]

theorem edgeEntries_id (e : DiagramEdge) :
    getKey (edgeEntries e) "id" = some (Json.str e.id) := rfl

theorem edgeEntries_source (e : DiagramEdge) :
    getKey (edgeEntries e) "source" = some (Json.str e.source) := rfl

theorem edgeEntries_target (e : DiagramEdge) :
    getKey (edgeEntries e) "target" = some (Json.str e.target) := rfl

theorem edgeEntries_label (e : DiagramEdge) :
    getKey (edgeEntries e) "label" = e.label.map Json.str := by
  cases h : e.label <;>
    simp [edgeEntries, getKey, List.append_assoc, getKey_optE_ne,
      getKey_optE_ne_nil, getKey_optE_some, getKey_optE_none,
      getKey_optE_some_nil, getKey_optE_none_nil, h]

theorem edgeEntries_ownershipPercentage (e : DiagramEdge) :
    getKey (edgeEntries e) "ownershipPercentage" =
      e.ownershipPercentage.map Json.num := by
  cases h : e.ownershipPercentage <;>
    simp [edgeEntries, getKey, List.append_assoc, getKey_optE_ne,
      getKey_optE_ne_nil, getKey_optE_some, getKey_optE_none,
      getKey_optE_some_nil, getKey_optE_none_nil, h]

theorem edgeEntries_isDraft (e : DiagramEdge) :
    getKey (edgeEntries e) "isDraft" = e.isDraft.map Json.bool := by
  cases h : e.isDraft <;>
    simp [edgeEntries, getKey, List.append_assoc, getKey_optE_ne,
      getKey_optE_ne_nil, getKey_optE_some, getKey_optE_none,
      getKey_optE_some_nil, getKey_optE_none_nil, h]

theorem parseEdge_serializeEdge (e : DiagramEdge) :
    parseEdge (serializeEdge e) = some e := by
  have hlabel := optField_round (edgeEntries e) "label" Json.str asStr e.label
    (edgeEntries_label e) (fun a => rfl)
  have hown := optField_round (edgeEntries e) "ownershipPercentage" Json.num
    asNum e.ownershipPercentage (edgeEntries_ownershipPercentage e)
    (fun a => rfl)
  have hisDraft := optField_round (edgeEntries e) "isDraft" Json.bool asBool
    e.isDraft (edgeEntries_isDraft e) (fun a => rfl)
  simp [parseEdge, serializeEdge, reqField, edgeEntries_id, edgeEntries_source,
    edgeEntries_target, asStr, hlabel, hown, hisDraft]

theorem parseList_serializeNode (l : List DiagramNode) :
    parseList parseNode (l.map serializeNode) =
      some (l.map (fun n => { n with dimension := none })) := by
  induction l with
  | nil => rfl
  | cons n l ih => simp [parseList, parseNode_serializeNode, ih]

theorem parseList_serializeEdge (l : List DiagramEdge) :
    parseList parseEdge (l.map serializeEdge) = some l := by
  induction l with
  | nil => rfl
  | cons e l ih => simp [parseList, parseEdge_serializeEdge, ih]

theorem parseDiagram_exportDiagram (st : DiagramState) :
    parseDiagram (exportDiagram st) =
      some { nodes := st.nodes.map (fun n => { n with dimension := none })
             edges := st.edges } := by
  simp [parseDiagram, exportDiagram, getKey, parseList_serializeNode,
    parseList_serializeEdge]

/-- C8 counterexample: the round trip does not preserve every label.  A
stored node may carry an empty label (the schema allows any string); on
re-load `label: n.label || n.id` replaces it by the id, so the claim
"identical labels" fails on a graph with a node `{id: "A", label: ""}`. -/
theorem C8Stated_false : ¬ C8Stated := by
  intro h
  obtain ⟨d, -, -, hlab, -⟩ := h stEmptyLabel
  have heval : (loadDiagram stEmptyLabel (exportDiagram stEmptyLabel)).nodes.map
      (fun n => n.label) = ["A"] := by rfl
  rw [heval] at hlab
  simp [stEmptyLabel, emptyState] at hlab

/-- C8 (amended): parsing the export succeeds, and loading it back yields a
graph with identical node identifiers, identical edges (hence identical
source/target relationships and edge identifiers), cleared selection, and
labels identical except that a node whose stored label is the empty string
gets its id as label (the load normalizes `label || id`). -/
theorem export_load_roundtrip (st : DiagramState) :
    parseDiagram (exportDiagram st) =
      some { nodes := st.nodes.map (fun n => { n with dimension := none })
             edges := st.edges } ∧
    (loadDiagram st (exportDiagram st)).edges = st.edges ∧
    (loadDiagram st (exportDiagram st)).nodes.map (fun n => n.id) =
      st.nodes.map (fun n => n.id) ∧
    (loadDiagram st (exportDiagram st)).nodes.map (fun n => n.label) =
      st.nodes.map (fun n => if n.label = "" then n.id else n.label) ∧
    (loadDiagram st (exportDiagram st)).nodes.map (fun n => n.effectiveOwnership) =
      st.nodes.map (fun n => n.effectiveOwnership) := by
  have hload : loadDiagram st (exportDiagram st) =
      { st with
        nodes := (st.nodes.map (fun n => { n with dimension := none })).map
          (fun n =>
            { n with
              label := if n.label = "" then n.id else n.label
              dimension := some ⟨200, 90⟩ })
        edges := st.edges
        selectedNodeId := none
        highlightedPath := ∅ } := by
    simp [loadDiagram, parseDiagram_exportDiagram st]
  refine ⟨parseDiagram_exportDiagram st, ?_, ?_, ?_, ?_⟩ <;>
    simp [hload, List.map_map, Function.comp]

/-! ### C1 — ownership propagation: delta lemmas -/

theorem map_congr_on {α β : Type} (l : List α) (f g : α → β)
    (h : ∀ a ∈ l, f a = g a) : l.map f = l.map g := by
  induction l with
  | nil => rfl
  | cons a l ih =>
    simp only [List.map_cons, h a (List.mem_cons_self a l)]
    rw [ih (fun b hb => h b (List.mem_cons_of_mem a hb))]

theorem applyD_id (δ : String → Option ℚ) (n : DiagramNode) :
    (applyD δ n).id = n.id := by
  unfold applyD
  cases δ n.id <;> rfl

theorem applyDelta_ids (ns : List DiagramNode) (δ : String → Option ℚ) :
    (applyDelta ns δ).map (fun n => n.id) = ns.map (fun n => n.id) := by
  simp only [applyDelta, List.map_map]
  exact map_congr_on ns _ _ (fun n _ => applyD_id δ n)

theorem dAdd_none_left (d : Option ℚ) : dAdd none d = d := by
  cases d <;> rfl

theorem dAdd_none_right (d : Option ℚ) : dAdd d none = d := by
  cases d <;> rfl

theorem dAdd_assoc (a b c : Option ℚ) :
    dAdd (dAdd a b) c = dAdd a (dAdd b c) := by
  cases a <;> cases b <;> cases c <;> simp [dAdd, add_assoc]

theorem applyD_comp (δ₁ δ₂ : String → Option ℚ) (n : DiagramNode) :
    applyD δ₂ (applyD δ₁ n) = applyD (fun b => dAdd (δ₁ b) (δ₂ b)) n := by
  unfold applyD
  cases h1 : δ₁ n.id <;> cases h2 : δ₂ n.id <;>
    simp [h1, h2, dAdd, add_assoc]

theorem applyDelta_comp (ns : List DiagramNode) (δ₁ δ₂ : String → Option ℚ) :
    applyDelta (applyDelta ns δ₁) δ₂ =
      applyDelta ns (fun b => dAdd (δ₁ b) (δ₂ b)) := by
  simp only [applyDelta, List.map_map]
  exact map_congr_on ns _ _ (fun n _ => applyD_comp δ₁ δ₂ n)

theorem applyD_skip (δ : String → Option ℚ) (n : DiagramNode)
    (h : δ n.id = none) : applyD δ n = n := by
  simp [applyD, h]

theorem applyDelta_none (ns : List DiagramNode) :
    applyDelta ns (fun _ => none) = ns := by
  unfold applyDelta
  rw [map_congr_on ns _ id (fun n _ => applyD_skip _ n rfl)]
  exact List.map_id ns

theorem addEff_eq_applyDelta (t : String) (v : ℚ) :
    ∀ (ns : List DiagramNode), (ns.map (fun n => n.id)).Nodup →
      addEff ns t v =
        applyDelta ns (fun b => if t = b then some v else none) := by
  intro ns
  induction ns with
  | nil => intro _; rfl
  | cons n ns ih =>
    intro hnd
    simp only [List.map_cons, List.nodup_cons, List.mem_map] at hnd
    by_cases hn : n.id = t
    · have hhead : applyD (fun b => if t = b then some v else none) n =
          { n with effectiveOwnership := some (n.effectiveOwnership.getD 0 + v) } := by
        simp [applyD, hn]
      have htail : ns.map (applyD (fun b => if t = b then some v else none)) = ns := by
        rw [map_congr_on ns _ id ?_]
        · exact List.map_id ns
        · intro m hm
          apply applyD_skip
          have hne : ¬ t = m.id := fun ht => hnd.1 ⟨m, hm, by rw [← ht, hn]⟩
          simp [hne]
      simp only [addEff, if_pos hn, applyDelta, List.map_cons, hhead, htail]
    · have hhead : applyD (fun b => if t = b then some v else none) n = n := by
        apply applyD_skip
        have hne : ¬ t = n.id := fun ht => hn ht.symm
        simp [hne]
      simp only [addEff, if_neg hn, applyDelta, List.map_cons, hhead]
      rw [ih hnd.2]
      rfl

theorem any_id_mem (ms : List DiagramNode) (t : String) :
    (ms.any (fun n => decide (n.id = t)) = true) ↔
      t ∈ ms.map (fun n => n.id) := by
  simp only [List.any_eq_true, List.mem_map, decide_eq_true_eq]

theorem foldl_applyDelta_comm {α : Type} (ns : List DiagramNode)
    (g : List DiagramNode → α → List DiagramNode)
    (g' : (String → Option ℚ) → α → (String → Option ℚ))
    (h : ∀ δ a, g (applyDelta ns δ) a = applyDelta ns (g' δ a)) :
    ∀ (L : List α) (δ : String → Option ℚ),
      L.foldl g (applyDelta ns δ) = applyDelta ns (L.foldl g' δ) := by
  intro L
  induction L with
  | nil => intro δ; rfl
  | cons a L ih =>
    intro δ
    rw [List.foldl_cons, List.foldl_cons, h δ a, ih (g' δ a)]

theorem propagate_delta (es : List DiagramEdge) (ids : List String)
    (hnd : ids.Nodup) :
    ∀ (fuel : Nat) (p : String) (v : ℚ) (ns : List DiagramNode),
      ns.map (fun n => n.id) = ids →
      propagateOwnership es fuel p v ns =
        applyDelta ns (propDelta es ids fuel p v) := by
  intro fuel
  induction fuel with
  | zero =>
    intro p v ns _
    simp [propagateOwnership, propDelta, applyDelta_none]
  | succ fuel ih =>
    intro p v ns hids
    have key : ∀ (δ : String → Option ℚ) (e : DiagramEdge),
        (fun acc e =>
          if acc.any (fun n => decide (n.id = e.target)) then
            propagateOwnership es fuel e.target (v * directStake e / 100)
              (addEff acc e.target (v * directStake e / 100))
          else acc) (applyDelta ns δ) e =
        applyDelta ns
          ((fun acc e =>
            if e.target ∈ ids then
              fun b' =>
                dAdd (dAdd (acc b')
                  (if e.target = b' then some (v * directStake e / 100) else none))
                  (propDelta es ids fuel e.target (v * directStake e / 100) b')
            else acc) δ e) := by
      intro δ e
      by_cases hm : e.target ∈ ids
      · have hany : (applyDelta ns δ).any (fun n => decide (n.id = e.target)) = true := by
          rw [any_id_mem, applyDelta_ids, hids]
          exact hm
        simp only [hany, if_pos hm, if_true]
        have hids' : (applyDelta ns δ).map (fun n => n.id) = ids := by
          rw [applyDelta_ids, hids]
        rw [addEff_eq_applyDelta _ _ _ (by rw [hids']; exact hnd),
          applyDelta_comp,
          ih e.target (v * directStake e / 100) _
            (by rw [applyDelta_ids, hids]),
          applyDelta_comp]
      · have hany : ¬ ((applyDelta ns δ).any (fun n => decide (n.id = e.target)) = true) := by
          rw [any_id_mem, applyDelta_ids, hids]
          exact hm
        simp only [if_neg hany, if_neg hm]
    calc propagateOwnership es (fuel + 1) p v ns
        = (es.filter (fun e => e.source = p)).foldl
            (fun acc e =>
              if acc.any (fun n => decide (n.id = e.target)) then
                propagateOwnership es fuel e.target (v * directStake e / 100)
                  (addEff acc e.target (v * directStake e / 100))
              else acc)
            (applyDelta ns (fun _ => none)) := by
          rw [applyDelta_none]
          rfl
      _ = applyDelta ns (propDelta es ids (fuel + 1) p v) := by
          rw [foldl_applyDelta_comm ns _ _ key]
          rfl

/-! ### C1 — from deltas to path sums -/

theorem wprod_nil : wprod [] = 1 := rfl

theorem wprod_cons (e : DiagramEdge) (l : List DiagramEdge) :
    wprod (e :: l) = (directStake e / 100) * wprod l := by
  simp [wprod]

theorem listToDelta_nil (v : ℚ) : listToDelta v [] = none := rfl

theorem listToDelta_append (v : ℚ) (L₁ L₂ : List (List DiagramEdge)) :
    listToDelta v (L₁ ++ L₂) = dAdd (listToDelta v L₁) (listToDelta v L₂) := by
  by_cases h1 : L₁ = []
  · subst h1
    simp [listToDelta, dAdd_none_left]
  · by_cases h2 : L₂ = []
    · subst h2
      simp [listToDelta, h1, dAdd_none_right]
    · have hne : ¬ (L₁ ++ L₂ = []) := by
        simp [List.append_eq_nil, h1]
      simp only [listToDelta, if_neg hne, if_neg h1, if_neg h2, dAdd,
        List.map_append, List.sum_append, mul_add]

theorem listToDelta_map_cons (v : ℚ) (e : DiagramEdge)
    (L : List (List DiagramEdge)) :
    listToDelta v (L.map (fun l => e :: l)) =
      listToDelta (v * directStake e / 100) L := by
  by_cases h : L = []
  · subst h
    rfl
  · have hne : ¬ (L.map (fun l => e :: l) = []) := by
      simp [h]
    simp only [listToDelta, if_neg hne, if_neg h, List.map_map]
    have hmap : L.map (wprod ∘ fun l => e :: l) =
        L.map (fun l => (directStake e / 100) * wprod l) :=
      map_congr_on L _ _ (fun l _ => wprod_cons e l)
    rw [hmap, List.sum_map_mul_left]
    ring_nf

theorem listToDelta_single (v : ℚ) (e : DiagramEdge) :
    listToDelta v [[e]] = some (v * directStake e / 100) := by
  simp [listToDelta, wprod_cons, wprod_nil]
  ring

theorem propDelta_paths (es : List DiagramEdge) (ids : List String) :
    ∀ (fuel : Nat) (p : String) (v : ℚ) (b : String),
      propDelta es ids fuel p v b = listToDelta v (pathsUpTo es ids fuel p b) := by
  intro fuel
  induction fuel with
  | zero =>
    intro p v b
    simp [propDelta, pathsUpTo, listToDelta]
  | succ fuel ih =>
    intro p v b
    have aux : ∀ (L : List DiagramEdge) (acc : String → Option ℚ),
        (L.foldl
          (fun acc e =>
            if e.target ∈ ids then
              fun b' =>
                dAdd (dAdd (acc b')
                  (if e.target = b' then some (v * directStake e / 100) else none))
                  (propDelta es ids fuel e.target (v * directStake e / 100) b')
            else acc)
          acc) b =
        dAdd (acc b)
          (listToDelta v (L.flatMap (fun e =>
            if e.target ∈ ids then
              (if e.target = b then [[e]] else []) ++
                (pathsUpTo es ids fuel e.target b).map (fun l => e :: l)
            else []))) := by
      intro L
      induction L with
      | nil =>
        intro acc
        simp [listToDelta_nil, dAdd_none_right]
      | cons e L ihL =>
        intro acc
        rw [List.foldl_cons, ihL, List.flatMap_cons, listToDelta_append,
          ← dAdd_assoc]
        congr 1
        by_cases hm : e.target ∈ ids
        · simp only [if_pos hm]
          rw [ih e.target (v * directStake e / 100) b, listToDelta_append,
            listToDelta_map_cons, ← dAdd_assoc]
          congr 1
          by_cases hb : e.target = b
          · simp only [if_pos hb, listToDelta_single]
          · simp only [if_neg hb, listToDelta_nil, dAdd_none_right]
        · simp only [if_neg hm, listToDelta_nil, dAdd_none_right]
    show (((es.filter (fun e => e.source = p)).foldl _ (fun _ => none)) : String → Option ℚ) b = _
    rw [aux (es.filter (fun e => e.source = p)) (fun _ => none)]
    rw [dAdd_none_left]
    rfl

/-! ### C1 — the fold over the roots -/

theorem pathsUpTo_nil_of_not_target (es : List DiagramEdge) (ids : List String)
    (b : String) (hb : ∀ e ∈ es, e.target ≠ b) :
    ∀ (fuel : Nat) (p : String), pathsUpTo es ids fuel p b = [] := by
  intro fuel
  induction fuel with
  | zero => intro p; rfl
  | succ fuel ih =>
    intro p
    rw [pathsUpTo, List.flatMap_eq_nil_iff]
    intro e he
    have hes : e ∈ es := List.mem_of_mem_filter he
    by_cases hm : e.target ∈ ids
    · simp [hm, hb e hes, ih e.target]
    · simp [hm]

theorem propDelta_none_of_not_target (es : List DiagramEdge) (ids : List String)
    (b : String) (hb : ∀ e ∈ es, e.target ≠ b) (fuel : Nat) (p : String)
    (v : ℚ) : propDelta es ids fuel p v b = none := by
  rw [propDelta_paths, pathsUpTo_nil_of_not_target es ids b hb, listToDelta_nil]

theorem totalDelta_not_target (es : List DiagramEdge) (ids : List String)
    (b : String) (hb : ∀ e ∈ es, e.target ≠ b) :
    ∀ (R : List (Nat × DiagramNode)), totalDelta es ids R b = none := by
  have aux : ∀ (R : List (Nat × DiagramNode)) (d : Option ℚ),
      R.foldl
        (fun d p => dAdd d (propDelta es ids (es.length + 1) p.2.id 100 b)) d
        = d := by
    intro R
    induction R with
    | nil => intro d; rfl
    | cons p R ih =>
      intro d
      rw [List.foldl_cons, propDelta_none_of_not_target es ids b hb,
        dAdd_none_right, ih d]
  intro R
  exact aux R none

theorem totalDelta_append_single (es : List DiagramEdge) (ids : List String)
    (R : List (Nat × DiagramNode)) (p : Nat × DiagramNode) (b : String) :
    totalDelta es ids (R ++ [p]) b =
      dAdd (totalDelta es ids R b)
        (propDelta es ids (es.length + 1) p.2.id 100 b) := by
  unfold totalDelta
  rw [List.foldl_append]
  rfl

theorem rootTransform_id (es : List DiagramEdge) (ids : List String)
    (R : List (Nat × DiagramNode)) (n : DiagramNode) :
    (rootTransform es ids R n).id = n.id := by
  unfold rootTransform
  by_cases h : n.id ∈ R.map (fun p => p.2.id)
  · simp [h]
  · simp [h, applyD_id]

theorem enumNodes_map_snd :
    ∀ (k : Nat) (ns : List DiagramNode),
      (enumNodes k ns).map (fun p => p.2) = ns := by
  intro k ns
  induction ns generalizing k with
  | nil => rfl
  | cons n ns ih => simp [enumNodes, ih]

theorem enumNodes_mem :
    ∀ (ns : List DiagramNode) (k i : Nat) (x : DiagramNode),
      (i, x) ∈ enumNodes k ns → ∃ j, i = k + j ∧ ns[j]? = some x := by
  intro ns
  induction ns with
  | nil => intro k i x h; simp [enumNodes] at h
  | cons n ns ih =>
    intro k i x h
    rcases List.mem_cons.mp h with heq | h
    · refine ⟨0, ?_, ?_⟩
      · simpa using congrArg Prod.fst heq
      · simpa using (congrArg Prod.snd heq).symm
    · obtain ⟨j, hij, hj⟩ := ih (k + 1) i x h
      exact ⟨j + 1, by omega, by simpa using hj⟩

theorem enumNodes_mem_of_mem :
    ∀ (ns : List DiagramNode) (k : Nat) (x : DiagramNode), x ∈ ns →
      ∃ i, (i, x) ∈ enumNodes k ns := by
  intro ns
  induction ns with
  | nil => intro k x h; simp at h
  | cons n ns ih =>
    intro k x h
    rcases List.mem_cons.mp h with rfl | h
    · exact ⟨k, List.mem_cons_self _ _⟩
    · obtain ⟨i, hi⟩ := ih (k + 1) x h
      exact ⟨i, List.mem_cons_of_mem _ hi⟩

theorem setEffIdx_map_aux (g : DiagramNode → DiagramNode)
    (hg : ∀ n, (g n).id = n.id) :
    ∀ (ns : List DiagramNode) (j : Nat) (x : DiagramNode),
      ns[j]? = some x → (ns.map (fun n => n.id)).Nodup →
      setEffIdx (ns.map g) j =
        ns.map (fun n =>
          if n.id = x.id then
            { g n with effectiveOwnership := some 100 }
          else g n) := by
  intro ns
  induction ns with
  | nil => intro j x h _; simp at h
  | cons n ns ih =>
    intro j x hj hnd
    simp only [List.map_cons, List.nodup_cons, List.mem_map] at hnd
    cases j with
    | zero =>
      rw [List.getElem?_cons_zero, Option.some_inj] at hj
      subst hj
      simp only [List.map_cons, setEffIdx, if_pos rfl]
      congr 1
      apply map_congr_on
      intro m hm
      have hne : ¬ m.id = n.id := fun he => hnd.1 ⟨m, hm, he⟩
      rw [if_neg hne]
    | succ j =>
      rw [List.getElem?_cons_succ] at hj
      have hxmem : x ∈ ns := by
        have := List.getElem?_eq_some_iff.mp hj
        obtain ⟨hlt, rfl⟩ := this
        exact List.getElem_mem hlt
      have hne : ¬ n.id = x.id := fun he => hnd.1 ⟨x, hxmem, he.symm⟩
      simp only [List.map_cons, setEffIdx, if_neg hne]
      rw [ih j x hj hnd.2]

theorem roots_fold_general (es : List DiagramEdge) (ns : List DiagramNode)
    (hnd : (ns.map (fun n => n.id)).Nodup) :
    ∀ (R Rdone : List (Nat × DiagramNode)),
      (∀ p ∈ R, (p.1, p.2) ∈ enumNodes 0 ns) →
      (∀ p ∈ Rdone ++ R, ∀ e ∈ es, e.target ≠ p.2.id) →
      ((Rdone ++ R).map (fun p => p.2.id)).Nodup →
      R.foldl
        (fun acc p =>
          propagateOwnership es (es.length + 1) p.2.id 100 (setEffIdx acc p.1))
        (ns.map (rootTransform es (ns.map (fun n => n.id)) Rdone)) =
        ns.map (rootTransform es (ns.map (fun n => n.id)) (Rdone ++ R)) := by
  intro R
  induction R with
  | nil =>
    intro Rdone _ _ _
    rw [List.append_nil]
    rfl
  | cons p R ih =>
    intro Rdone hmem htgt hnodup
    have hpmem := hmem p (List.mem_cons_self p R)
    obtain ⟨j, hj0, hjget⟩ := enumNodes_mem ns 0 p.1 p.2 hpmem
    have hjeq : p.1 = j := by omega
    have hget : ns[p.1]? = some p.2 := by rw [hjeq]; exact hjget
    have hptgt : ∀ e ∈ es, e.target ≠ p.2.id :=
      htgt p (List.mem_append.mpr (Or.inr (List.mem_cons_self p R)))
    have hpnotdone : p.2.id ∉ Rdone.map (fun q => q.2.id) := by
      intro hin
      rw [List.map_append, List.nodup_append] at hnodup
      exact hnodup.2.2 hin
        (by simp only [List.map_cons]; exact List.mem_cons_self _ _)
    have hdonetgt : ∀ q ∈ Rdone, ∀ e ∈ es, e.target ≠ q.2.id := fun q hq =>
      htgt q (List.mem_append.mpr (Or.inl hq))
    set ids := ns.map (fun n => n.id) with hids
    set g := rootTransform es ids Rdone with hgdef
    have hgid : ∀ n, (g n).id = n.id := rootTransform_id es ids Rdone
    have hstep1 : setEffIdx (ns.map g) p.1 =
        ns.map (fun n =>
          if n.id = p.2.id then
            { g n with effectiveOwnership := some 100 }
          else g n) :=
      setEffIdx_map_aux g hgid ns p.1 p.2 hget hnd
    set g₁ := fun n =>
      if n.id = p.2.id then
        { g n with effectiveOwnership := some 100 }
      else g n with hg₁def
    have hg₁id : ∀ n, (g₁ n).id = n.id := by
      intro n
      by_cases h : n.id = p.2.id <;> simp [hg₁def, h, hgid n]
    have hids₁ : (ns.map g₁).map (fun n => n.id) = ids := by
      rw [List.map_map]
      exact map_congr_on ns _ _ (fun n _ => hg₁id n)
    have hstep2 : propagateOwnership es (es.length + 1) p.2.id 100 (ns.map g₁) =
        (ns.map g₁).map (applyD (propDelta es ids (es.length + 1) p.2.id 100)) :=
      propagate_delta es ids hnd (es.length + 1) p.2.id 100 (ns.map g₁) hids₁
    have key : ∀ n ∈ ns,
        applyD (propDelta es ids (es.length + 1) p.2.id 100) (g₁ n) =
          rootTransform es ids (Rdone ++ [p]) n := by
      intro n _
      have hδroot : ∀ m : DiagramNode, m.id = p.2.id →
          propDelta es ids (es.length + 1) p.2.id 100 m.id = none := by
        intro m hm
        rw [hm]
        exact propDelta_none_of_not_target es ids p.2.id hptgt _ _ _
      by_cases hA : n.id = p.2.id
      · have hgn : g n = n := by
          rw [hgdef]
          unfold rootTransform
          rw [if_neg (by rw [hA]; exact hpnotdone)]
          apply applyD_skip
          rw [totalDelta_not_target es ids n.id (by rw [hA]; exact hptgt)]
        have hg₁n : g₁ n = { n with effectiveOwnership := some 100 } := by
          rw [hg₁def]
          simp only [if_pos hA, hgn]
        rw [hg₁n]
        rw [applyD_skip _ { n with effectiveOwnership := some 100 }
          (hδroot { n with effectiveOwnership := some 100 } hA)]
        unfold rootTransform
        rw [if_pos]
        rw [List.map_append]
        exact List.mem_append.mpr (Or.inr (by simp [hA]))
      · by_cases hB : n.id ∈ Rdone.map (fun q => q.2.id)
        · have hgn : g n = { n with effectiveOwnership := some 100 } := by
            rw [hgdef]
            unfold rootTransform
            rw [if_pos hB]
          have hg₁n : g₁ n = { n with effectiveOwnership := some 100 } := by
            rw [hg₁def]
            simp only [if_neg hA, hgn]
          obtain ⟨q, hq, hqid⟩ := List.mem_map.mp hB
          rw [hg₁n]
          rw [applyD_skip _ _ (by
            show propDelta es ids (es.length + 1) p.2.id 100 _ = none
            have : ({ n with effectiveOwnership := some (100 : ℚ) }).id = n.id := rfl
            rw [this, ← hqid]
            exact propDelta_none_of_not_target es ids q.2.id
              (hdonetgt q hq) _ _ _)]
          unfold rootTransform
          rw [if_pos]
          rw [List.map_append]
          exact List.mem_append.mpr (Or.inl hB)
        · have hg₁n : g₁ n = applyD (totalDelta es ids Rdone) n := by
            rw [hg₁def]
            simp only [if_neg hA]
            rw [hgdef]
            unfold rootTransform
            rw [if_neg hB]
          rw [hg₁n, applyD_comp]
          unfold rootTransform
          rw [if_neg (by
            rw [List.map_append]
            intro hin
            rcases List.mem_append.mp hin with h | h
            · exact hB h
            · simp at h
              exact hA h)]
          congr 1
          funext b
          rw [totalDelta_append_single]
    have hstep3 : (ns.map g₁).map
        (applyD (propDelta es ids (es.length + 1) p.2.id 100)) =
        ns.map (rootTransform es ids (Rdone ++ [p])) := by
      rw [List.map_map]
      exact map_congr_on ns _ _ key
    rw [List.foldl_cons, hstep1, hstep2, hstep3]
    have hre : (Rdone ++ [p]) ++ R = Rdone ++ p :: R := by
      rw [List.append_assoc]
      rfl
    have := ih (Rdone ++ [p])
      (fun q hq => hmem q (List.mem_cons_of_mem p hq))
      (by rw [hre]; exact htgt)
      (by rw [hre]; exact hnodup)
    rw [hre] at this
    exact this

theorem calculateEffectiveOwnership_eq (ns : List DiagramNode)
    (es : List DiagramEdge) (hnd : (ns.map (fun n => n.id)).Nodup) :
    calculateEffectiveOwnership ns es =
      ns.map (rootTransform es (ns.map (fun n => n.id)) (rootsList ns es)) := by
  have hinit : ns.map (rootTransform es (ns.map (fun n => n.id)) []) = ns := by
    rw [map_congr_on ns _ id ?_]
    · exact List.map_id ns
    · intro n _
      unfold rootTransform
      rw [if_neg (by simp)]
      exact applyD_skip _ _ rfl
  have hmem : ∀ p ∈ rootsList ns es, (p.1, p.2) ∈ enumNodes 0 ns := by
    intro p hp
    rw [Prod.mk.eta]
    exact List.mem_of_mem_filter hp
  have htgt : ∀ p ∈ ([] : List (Nat × DiagramNode)) ++ rootsList ns es,
      ∀ e ∈ es, e.target ≠ p.2.id := by
    intro p hp e he
    rw [List.nil_append] at hp
    have := (List.mem_filter.mp hp).2
    simp only [Bool.not_eq_true', List.any_eq_false, decide_eq_true_eq] at this
    simpa using this e he
  have hnodup : ((([] : List (Nat × DiagramNode)) ++ rootsList ns es).map
      (fun p => p.2.id)).Nodup := by
    rw [List.nil_append]
    have hsub : (rootsList ns es).map (fun p => p.2.id) =
        ((rootsList ns es).map (fun p => p.2)).map (fun n => n.id) := by
      rw [List.map_map]
      rfl
    rw [hsub]
    have hsl : (rootsList ns es).Sublist (enumNodes 0 ns) :=
      List.filter_sublist _
    have hsl2 : ((rootsList ns es).map (fun p => p.2)).Sublist ns := by
      have := hsl.map (fun p : Nat × DiagramNode => p.2)
      rwa [enumNodes_map_snd] at this
    exact (hsl2.map (fun n => n.id)).nodup hnd
  have := roots_fold_general es ns hnd (rootsList ns es) [] hmem htgt hnodup
  rw [hinit, List.nil_append] at this
  exact this

theorem totalDelta_eq_listToDelta (es : List DiagramEdge) (ids : List String)
    (b : String) :
    ∀ (R : List (Nat × DiagramNode)),
      totalDelta es ids R b =
        listToDelta 100 (R.flatMap
          (fun p => pathsUpTo es ids (es.length + 1) p.2.id b)) := by
  have aux : ∀ (R : List (Nat × DiagramNode)) (d : Option ℚ),
      R.foldl
        (fun d p => dAdd d (propDelta es ids (es.length + 1) p.2.id 100 b)) d =
        dAdd d (listToDelta 100 (R.flatMap
          (fun p => pathsUpTo es ids (es.length + 1) p.2.id b))) := by
    intro R
    induction R with
    | nil =>
      intro d
      rw [List.flatMap_nil, listToDelta_nil, dAdd_none_right]
      rfl
    | cons p R ih =>
      intro d
      rw [List.foldl_cons, ih, List.flatMap_cons, listToDelta_append,
        ← dAdd_assoc, propDelta_paths]
  intro R
  rw [totalDelta, aux R none, dAdd_none_left]

theorem sum_pathValue (L : List (List DiagramEdge)) :
    (L.map pathValue).sum = 100 * (L.map wprod).sum := by
  have : L.map pathValue = L.map (fun l => 100 * wprod l) := by
    apply map_congr_on
    intro l _
    rfl
  rw [this, List.sum_map_mul_left]

theorem listToDelta_perm (v : ℚ) (L₁ L₂ : List (List DiagramEdge))
    (h : L₁.Perm L₂) : listToDelta v L₁ = listToDelta v L₂ := by
  by_cases h1 : L₁ = []
  · subst h1
    rw [List.perm_nil.mp h.symm]
  · have h2 : L₂ ≠ [] := by
      intro h2
      subst h2
      exact h1 (List.perm_nil.mp h)
    simp only [listToDelta, if_neg h1, if_neg h2]
    rw [(h.map wprod).sum_eq]

/-! ### C1 — chains, enumeration of paths, acyclicity bounds -/

theorem chainFrom_cons (a : String) (e : DiagramEdge) (l : List DiagramEdge)
    (b : String) (h : chainFrom a (e :: l) = some b) :
    e.source = a ∧ chainFrom e.target l = some b := by
  rw [chainFrom] at h
  by_cases hs : e.source = a
  · rw [if_pos hs] at h
    exact ⟨hs, h⟩
  · rw [if_neg hs] at h
    cases h

theorem rank_chain (es : List DiagramEdge) (rank : String → ℕ)
    (hr : ∀ e ∈ es, rank e.source < rank e.target) :
    ∀ (l : List DiagramEdge) (a b : String),
      (∀ e ∈ l, e ∈ es) → chainFrom a l = some b →
      ∀ f ∈ l, rank a ≤ rank f.source := by
  intro l
  induction l with
  | nil => intro a b _ _ f hf; simp at hf
  | cons e l ih =>
    intro a b hsub hchain f hf
    obtain ⟨hsa, hchain'⟩ := chainFrom_cons a e l b hchain
    rcases List.mem_cons.mp hf with rfl | hf
    · rw [hsa]
    · have h1 : rank a < rank e.target := by
        rw [← hsa]
        exact hr e (hsub e (List.mem_cons_self e l))
      have h2 : rank e.target ≤ rank f.source :=
        ih e.target b (fun g hg => hsub g (List.mem_cons_of_mem e hg))
          hchain' f hf
      omega

theorem chain_nodup (es : List DiagramEdge) (rank : String → ℕ)
    (hr : ∀ e ∈ es, rank e.source < rank e.target) :
    ∀ (l : List DiagramEdge) (a b : String),
      (∀ e ∈ l, e ∈ es) → chainFrom a l = some b → l.Nodup := by
  intro l
  induction l with
  | nil => intro a b _ _; exact List.nodup_nil
  | cons e l ih =>
    intro a b hsub hchain
    obtain ⟨hsa, hchain'⟩ := chainFrom_cons a e l b hchain
    rw [List.nodup_cons]
    constructor
    · intro hmem
      have h1 : rank e.source < rank e.target :=
        hr e (hsub e (List.mem_cons_self e l))
      have h2 : rank e.target ≤ rank e.source :=
        rank_chain es rank hr l e.target b
          (fun g hg => hsub g (List.mem_cons_of_mem e hg)) hchain' e hmem
      omega
    · exact ih e.target b (fun g hg => hsub g (List.mem_cons_of_mem e hg))
        hchain'

theorem chain_length_le (es : List DiagramEdge) (hacyc : EdgeAcyclic es)
    (l : List DiagramEdge) (a b : String) (hsub : ∀ e ∈ l, e ∈ es)
    (hchain : chainFrom a l = some b) : l.length ≤ es.length := by
  obtain ⟨rank, hr⟩ := hacyc
  have hnd : l.Nodup := chain_nodup es rank hr l a b hsub hchain
  have h1 : l.toFinset.card = l.length := List.toFinset_card_of_nodup hnd
  have h2 : l.toFinset ⊆ es.toFinset := by
    intro e he
    rw [List.mem_toFinset] at he ⊢
    exact hsub e he
  have h3 := Finset.card_le_card h2
  have h4 := List.toFinset_card_le es
  omega

theorem listsLen_mem (es : List DiagramEdge) :
    ∀ (k : Nat) (l : List DiagramEdge),
      l ∈ listsLen k es ↔ (l.length = k ∧ ∀ e ∈ l, e ∈ es) := by
  intro k
  induction k with
  | zero =>
    intro l
    constructor
    · intro h
      simp only [listsLen, List.mem_singleton] at h
      subst h
      simp
    · rintro ⟨hlen, -⟩
      rw [List.length_eq_zero] at hlen
      subst hlen
      simp [listsLen]
  | succ k ih =>
    intro l
    rw [listsLen, List.mem_flatMap]
    constructor
    · rintro ⟨e, he, hl⟩
      obtain ⟨l', hl', rfl⟩ := List.mem_map.mp hl
      obtain ⟨hlen, hsub⟩ := (ih l').mp hl'
      refine ⟨by simp [hlen], ?_⟩
      intro f hf
      rcases List.mem_cons.mp hf with rfl | hf
      · exact he
      · exact hsub f hf
    · rintro ⟨hlen, hsub⟩
      cases l with
      | nil => simp at hlen
      | cons e l' =>
        refine ⟨e, hsub e (List.mem_cons_self e l'), ?_⟩
        refine List.mem_map.mpr ⟨l', ?_, rfl⟩
        refine (ih l').mpr ⟨by simpa using hlen, ?_⟩
        intro f hf
        exact hsub f (List.mem_cons_of_mem e hf)

theorem chainLists_mem (es : List DiagramEdge) (a b : String)
    (l : List DiagramEdge) :
    l ∈ chainLists es a b ↔
      (l.length ≤ es.length ∧ (∀ e ∈ l, e ∈ es) ∧ l ≠ [] ∧
        chainFrom a l = some b) := by
  rw [chainLists, List.mem_filter, List.mem_flatMap]
  constructor
  · rintro ⟨⟨k, hk, hl⟩, hpred⟩
    obtain ⟨hlen, hsub⟩ := (listsLen_mem es k l).mp hl
    rw [List.mem_range] at hk
    simp only [decide_eq_true_eq] at hpred
    exact ⟨by omega, hsub, hpred.1, hpred.2⟩
  · rintro ⟨hlen, hsub, hne, hchain⟩
    refine ⟨⟨l.length, ?_, (listsLen_mem es l.length l).mpr ⟨rfl, hsub⟩⟩, ?_⟩
    · rw [List.mem_range]
      omega
    · simp only [decide_eq_true_eq]
      exact ⟨hne, hchain⟩

theorem chainLists_complete (es : List DiagramEdge) (hacyc : EdgeAcyclic es)
    (a b : String) (l : List DiagramEdge) :
    l ∈ chainLists es a b ↔
      (l ≠ [] ∧ (∀ e ∈ l, e ∈ es) ∧ chainFrom a l = some b) := by
  rw [chainLists_mem]
  constructor
  · rintro ⟨-, hsub, hne, hchain⟩
    exact ⟨hne, hsub, hchain⟩
  · rintro ⟨hne, hsub, hchain⟩
    exact ⟨chain_length_le es hacyc l a b hsub hchain, hsub, hne, hchain⟩

theorem pathsUpTo_mem (es : List DiagramEdge) (ids : List String)
    (hids : ∀ e ∈ es, e.target ∈ ids) :
    ∀ (fuel : Nat) (p b : String) (l : List DiagramEdge),
      l ∈ pathsUpTo es ids fuel p b ↔
        (l ≠ [] ∧ l.length ≤ fuel ∧ chainFrom p l = some b ∧
          ∀ e ∈ l, e ∈ es) := by
  intro fuel
  induction fuel with
  | zero =>
    intro p b l
    constructor
    · intro h
      simp [pathsUpTo] at h
    · rintro ⟨hne, hlen, -, -⟩
      cases l with
      | nil => exact absurd rfl hne
      | cons e l' => simp at hlen
  | succ fuel ih =>
    intro p b l
    rw [pathsUpTo, List.mem_flatMap]
    constructor
    · rintro ⟨e, hef, hbr⟩
      have hes : e ∈ es := List.mem_of_mem_filter hef
      have hsrc : e.source = p := by
        have := (List.mem_filter.mp hef).2
        simpa using this
      rw [if_pos (hids e hes)] at hbr
      rcases List.mem_append.mp hbr with h1 | h2
      · by_cases htb : e.target = b
        · rw [if_pos htb] at h1
          rw [List.mem_singleton] at h1
          subst h1
          refine ⟨by simp, by simp, ?_, ?_⟩
          · rw [chainFrom, if_pos hsrc, chainFrom, htb]
          · intro f hf
            rw [List.mem_singleton] at hf
            subst hf
            exact hes
        · rw [if_neg htb] at h1
          simp at h1
      · obtain ⟨l', hl', rfl⟩ := List.mem_map.mp h2
        obtain ⟨hne', hlen', hchain', hsub'⟩ := (ih e.target b l').mp hl'
        refine ⟨by simp, by simp [Nat.succ_le_succ hlen'], ?_, ?_⟩
        · rw [chainFrom, if_pos hsrc]
          exact hchain'
        · intro f hf
          rcases List.mem_cons.mp hf with rfl | hf
          · exact hes
          · exact hsub' f hf
    · rintro ⟨hne, hlen, hchain, hsub⟩
      cases l with
      | nil => exact absurd rfl hne
      | cons e l' =>
        have hes : e ∈ es := hsub e (List.mem_cons_self e l')
        obtain ⟨hsrc, hchain'⟩ := chainFrom_cons p e l' b hchain
        refine ⟨e, List.mem_filter.mpr ⟨hes, by simp [hsrc]⟩, ?_⟩
        rw [if_pos (hids e hes)]
        cases l' with
        | nil =>
          have htb : e.target = b := by
            rw [chainFrom] at hchain'
            exact Option.some_inj.mp hchain'
          refine List.mem_append.mpr (Or.inl ?_)
          rw [if_pos htb]
          exact List.mem_singleton.mpr rfl
        | cons f l'' =>
          refine List.mem_append.mpr (Or.inr ?_)
          refine List.mem_map.mpr ⟨f :: l'', ?_, rfl⟩
          refine (ih e.target b (f :: l'')).mpr ⟨by simp, ?_, hchain', ?_⟩
          · have : (e :: f :: l'').length ≤ fuel + 1 := hlen
            simpa using Nat.le_of_succ_le_succ this
          · intro g hg
            exact hsub g (List.mem_cons_of_mem e hg)

/-! ### C1 — duplicate-freeness of the path enumerations -/

theorem listsLen_nodup (es : List DiagramEdge) (hnd : es.Nodup) :
    ∀ (k : Nat), (listsLen k es).Nodup := by
  intro k
  induction k with
  | zero => simp [listsLen]
  | succ k ih =>
    rw [listsLen, List.nodup_flatMap]
    constructor
    · intro e _
      exact ih.map (fun l l' h => by simpa using h)
    · apply hnd.imp
      intro e f hef l hl hl'
      obtain ⟨l₁, -, rfl⟩ := List.mem_map.mp hl
      obtain ⟨l₂, -, heq⟩ := List.mem_map.mp hl'
      exact hef (by simpa using congrArg (fun x => List.head? x) heq.symm)

theorem pathsUpTo_head (es : List DiagramEdge) (ids : List String)
    (fuel : Nat) (p b : String) (l : List DiagramEdge) (e : DiagramEdge)
    (hbr : l ∈ (if e.target ∈ ids then
        (if e.target = b then [[e]] else []) ++
          (pathsUpTo es ids fuel e.target b).map (fun l => e :: l)
      else [])) :
    ∃ t, l = e :: t := by
  by_cases hm : e.target ∈ ids
  · rw [if_pos hm] at hbr
    rcases List.mem_append.mp hbr with h1 | h2
    · by_cases htb : e.target = b
      · rw [if_pos htb] at h1
        rw [List.mem_singleton] at h1
        exact ⟨[], h1⟩
      · rw [if_neg htb] at h1
        simp at h1
    · obtain ⟨l', -, rfl⟩ := List.mem_map.mp h2
      exact ⟨l', rfl⟩
  · rw [if_neg hm] at hbr
    simp at hbr

theorem pathsUpTo_ne_nil (es : List DiagramEdge) (ids : List String) :
    ∀ (fuel : Nat) (p b : String) (l : List DiagramEdge),
      l ∈ pathsUpTo es ids fuel p b → l ≠ [] := by
  intro fuel p b l hl
  cases fuel with
  | zero => simp [pathsUpTo] at hl
  | succ fuel =>
    rw [pathsUpTo, List.mem_flatMap] at hl
    obtain ⟨e, -, hbr⟩ := hl
    obtain ⟨t, rfl⟩ := pathsUpTo_head es ids fuel p b l e hbr
    simp

theorem pathsUpTo_nodup (es : List DiagramEdge) (ids : List String)
    (hnd : es.Nodup) :
    ∀ (fuel : Nat) (p b : String), (pathsUpTo es ids fuel p b).Nodup := by
  intro fuel
  induction fuel with
  | zero => intro p b; simp [pathsUpTo]
  | succ fuel ih =>
    intro p b
    rw [pathsUpTo, List.nodup_flatMap]
    constructor
    · intro e _
      by_cases hm : e.target ∈ ids
      · rw [if_pos hm]
        rw [List.nodup_append]
        refine ⟨?_, (ih e.target b).map (fun l l' h => by simpa using h), ?_⟩
        · by_cases htb : e.target = b <;> simp [htb]
        · intro l h1 h2
          obtain ⟨l', hl', heq⟩ := List.mem_map.mp h2
          by_cases htb : e.target = b
          · rw [if_pos htb] at h1
            rw [List.mem_singleton] at h1
            subst h1
            have : l' = [] := by simpa using heq
            subst this
            exact pathsUpTo_ne_nil es ids fuel e.target b [] hl' rfl
          · rw [if_neg htb] at h1
            simp at h1
      · rw [if_neg hm]
        exact List.nodup_nil
    · apply (hnd.filter _).imp
      intro e f hef l hl hl'
      obtain ⟨t, rfl⟩ := pathsUpTo_head es ids fuel p b l e hl
      obtain ⟨t', heq⟩ := pathsUpTo_head es ids fuel p b (e :: t) f hl'
      exact hef (by simpa using congrArg (fun x => List.head? x) heq)

theorem chainLists_nodup (es : List DiagramEdge) (hnd : es.Nodup)
    (a b : String) : (chainLists es a b).Nodup := by
  apply List.Nodup.filter
  rw [List.nodup_flatMap]
  constructor
  · intro k _
    exact listsLen_nodup es hnd k
  · apply (List.nodup_range (es.length + 1)).imp
    intro k k' hkk l hl hl'
    have h1 := ((listsLen_mem es k l).mp hl).1
    have h2 := ((listsLen_mem es k' l).mp hl').1
    exact hkk (h1.symm.trans h2)

theorem chainLists_start (es : List DiagramEdge) (a b : String)
    (l : List DiagramEdge) (hl : l ∈ chainLists es a b) :
    ∃ e t, l = e :: t ∧ e.source = a := by
  obtain ⟨-, -, hne, hchain⟩ := (chainLists_mem es a b l).mp hl
  cases l with
  | nil => exact absurd rfl hne
  | cons e t =>
    obtain ⟨hsrc, -⟩ := chainFrom_cons a e t b hchain
    exact ⟨e, t, rfl, hsrc⟩

/-! ### C1 — facts about the synthesized flat-list graph -/

theorem rootsList_snd (ns : List DiagramNode) (es : List DiagramEdge) :
    (rootsList ns es).map (fun p => p.2) =
      ns.filter (fun n => !(es.any (fun e => decide (e.target = n.id)))) := by
  unfold rootsList
  suffices h : ∀ (k : Nat),
      ((enumNodes k ns).filter
        (fun p => !(es.any (fun e => decide (e.target = p.2.id))))).map
          (fun p => p.2) =
        ns.filter (fun n => !(es.any (fun e => decide (e.target = n.id)))) from
    h 0
  induction ns with
  | nil => intro k; rfl
  | cons n ns ih =>
    intro k
    rw [enumNodes]
    cases hp : es.any (fun e => decide (e.target = n.id)) with
    | true =>
      have h1 : (!(es.any (fun e => decide (e.target = n.id)))) = false := by
        rw [hp]
        rfl
      simp only [List.filter_cons, h1, Bool.false_eq_true, if_false]
      exact ih (k + 1)
    | false =>
      have h1 : (!(es.any (fun e => decide (e.target = n.id)))) = true := by
        rw [hp]
        rfl
      simp only [List.filter_cons, h1, if_true, List.map_cons]
      rw [ih (k + 1)]

theorem flatNode_id (ent : FlatEntity) : (flatNode ent).id = ent.id := rfl

theorem flatNodes_ids (entities : List FlatEntity) :
    (entities.map flatNode).map (fun n => n.id) =
      entities.map (fun ent => ent.id) := by
  rw [List.map_map]
  rfl

theorem flatEdges_targets (entities : List FlatEntity) :
    (flatEdges entities).map (fun e => e.target) =
      (entities.filter hasTruthyParent).map (fun ent => ent.id) := by
  induction entities with
  | nil => rfl
  | cons ent rest ih =>
    rw [flatEdges, List.filterMap_cons]
    cases hpid : ent.parentId with
    | none =>
      have hpar : hasTruthyParent ent = false := by
        simp [hasTruthyParent, hpid]
      rw [List.filter_cons_of_neg (by simp [hpar])]
      simpa [Option.bind, hpid] using ih
    | some pid =>
      by_cases hemp : pid = ""
      · have hpar : hasTruthyParent ent = false := by
          simp [hasTruthyParent, hpid, hemp]
        rw [List.filter_cons_of_neg (by simp [hpar])]
        subst hemp
        simpa [Option.bind, hpid] using ih
      · have hpar : hasTruthyParent ent = true := by
          simp [hasTruthyParent, hpid, hemp]
        rw [List.filter_cons_of_pos (by simp [hpar])]
        simp only [Option.bind, hpid, if_neg hemp, List.map_cons]
        rw [← ih]
        rfl

theorem flatEdges_target_mem (entities : List FlatEntity) (e : DiagramEdge)
    (he : e ∈ flatEdges entities) :
    e.target ∈ entities.map (fun ent => ent.id) := by
  have h1 : e.target ∈ (flatEdges entities).map (fun e => e.target) :=
    List.mem_map.mpr ⟨e, he, rfl⟩
  rw [flatEdges_targets] at h1
  have hsl : ((entities.filter hasTruthyParent).map
      (fun ent => ent.id)).Sublist (entities.map (fun ent => ent.id)) :=
    (List.filter_sublist entities).map _
  exact hsl.mem h1

theorem flatEdges_targets_nodup (entities : List FlatEntity)
    (hnd : (entities.map (fun ent => ent.id)).Nodup) :
    ((flatEdges entities).map (fun e => e.target)).Nodup := by
  rw [flatEdges_targets]
  exact ((List.filter_sublist entities).map (fun ent => ent.id)).nodup hnd

theorem flatEdges_nodup (entities : List FlatEntity)
    (hnd : (entities.map (fun ent => ent.id)).Nodup) :
    (flatEdges entities).Nodup :=
  (flatEdges_targets_nodup entities hnd).of_map _

/-! ### C1 — the combined delta equals the sum over root paths -/

theorem pathsUpTo_start (es : List DiagramEdge) (ids : List String)
    (hids : ∀ e ∈ es, e.target ∈ ids) (fuel : Nat) (r b : String)
    (l : List DiagramEdge) (hl : l ∈ pathsUpTo es ids fuel r b) :
    ∃ e t, l = e :: t ∧ e.source = r := by
  obtain ⟨hne, -, hchain, -⟩ := (pathsUpTo_mem es ids hids fuel r b l).mp hl
  cases l with
  | nil => exact absurd rfl hne
  | cons e t =>
    obtain ⟨hsrc, -⟩ := chainFrom_cons r e t b hchain
    exact ⟨e, t, rfl, hsrc⟩

theorem totalDelta_rootPaths (ns : List DiagramNode) (es : List DiagramEdge)
    (hnd : (ns.map (fun n => n.id)).Nodup)
    (hesnd : es.Nodup)
    (hids : ∀ e ∈ es, e.target ∈ ns.map (fun n => n.id))
    (hacyc : EdgeAcyclic es) (b : String) :
    totalDelta es (ns.map (fun n => n.id)) (rootsList ns es) b =
      listToDelta 100 (rootPathsTo ns es b) := by
  rw [totalDelta_eq_listToDelta]
  apply listToDelta_perm
  have hbase1 : (rootsList ns es).flatMap
      (fun p => pathsUpTo es (ns.map (fun n => n.id)) (es.length + 1) p.2.id b) =
      (ns.filter (fun n => !(es.any (fun e => decide (e.target = n.id))))).flatMap
        (fun n => pathsUpTo es (ns.map (fun n => n.id)) (es.length + 1) n.id b) := by
    rw [← rootsList_snd ns es,
      List.flatMap_map (fun p : Nat × DiagramNode => p.2)
        (fun n => pathsUpTo es (ns.map (fun n => n.id)) (es.length + 1) n.id b)
        (rootsList ns es)]
  have hbase2 : rootPathsTo ns es b =
      (ns.filter (fun n => !(es.any (fun e => decide (e.target = n.id))))).flatMap
        (fun n => chainLists es n.id b) := by
    unfold rootPathsTo rootIdsOf
    rw [List.flatMap_map (fun n : DiagramNode => n.id)
      (fun r => chainLists es r b)]
  rw [hbase1, hbase2]
  have hBids : ((ns.filter
      (fun n => !(es.any (fun e => decide (e.target = n.id))))).map
        (fun n => n.id)).Nodup :=
    ((List.filter_sublist ns).map (fun n => n.id)).nodup hnd
  have hpair : (ns.filter
      (fun n => !(es.any (fun e => decide (e.target = n.id))))).Pairwise
        (fun n m => n.id ≠ m.id) := by
    have h := hBids
    rw [List.Nodup, List.pairwise_map] at h
    exact h
  have hnodup1 : ((ns.filter
      (fun n => !(es.any (fun e => decide (e.target = n.id))))).flatMap
        (fun n => pathsUpTo es (ns.map (fun n => n.id)) (es.length + 1) n.id b)).Nodup := by
    rw [List.nodup_flatMap]
    refine ⟨fun n _ => pathsUpTo_nodup es _ hesnd _ _ _, ?_⟩
    apply hpair.imp
    intro a c hac l hl hl'
    obtain ⟨e, t, rfl, hsa⟩ := pathsUpTo_start es _ hids _ a.id b _ hl
    obtain ⟨e', t', heq, hsb⟩ := pathsUpTo_start es _ hids _ c.id b _ hl'
    have he : e' = e := (List.cons.injEq e' t' e t).mp heq.symm |>.1
    exact hac (by rw [← hsa, ← hsb, he])
  have hnodup2 : ((ns.filter
      (fun n => !(es.any (fun e => decide (e.target = n.id))))).flatMap
        (fun n => chainLists es n.id b)).Nodup := by
    rw [List.nodup_flatMap]
    refine ⟨fun n _ => chainLists_nodup es hesnd _ _, ?_⟩
    apply hpair.imp
    intro a c hac l hl hl'
    obtain ⟨e, t, rfl, hsa⟩ := chainLists_start es a.id b _ hl
    obtain ⟨e', t', heq, hsb⟩ := chainLists_start es c.id b _ hl'
    have he : e' = e := (List.cons.injEq e' t' e t).mp heq.symm |>.1
    exact hac (by rw [← hsa, ← hsb, he])
  rw [List.perm_ext_iff_of_nodup hnodup1 hnodup2]
  intro l
  rw [List.mem_flatMap, List.mem_flatMap]
  constructor
  · rintro ⟨n, hnB, hl⟩
    obtain ⟨hne, hlen, hchain, hsub⟩ :=
      (pathsUpTo_mem es _ hids _ n.id b l).mp hl
    exact ⟨n, hnB, (chainLists_complete es hacyc n.id b l).mpr
      ⟨hne, hsub, hchain⟩⟩
  · rintro ⟨n, hnB, hl⟩
    obtain ⟨hne, hsub, hchain⟩ := (chainLists_complete es hacyc n.id b l).mp hl
    refine ⟨n, hnB, (pathsUpTo_mem es _ hids _ n.id b l).mpr
      ⟨hne, ?_, hchain, hsub⟩⟩
    have := chain_length_le es hacyc l n.id b hsub hchain
    omega

theorem mem_rootsList_ids (ns : List DiagramNode) (es : List DiagramEdge)
    (x : DiagramNode) (hmem : x ∈ ns) :
    x.id ∈ (rootsList ns es).map (fun p => p.2.id) ↔
      ¬ ∃ e ∈ es, e.target = x.id := by
  constructor
  · rintro hin ⟨e, he, htgt⟩
    obtain ⟨p, hp, hpid⟩ := List.mem_map.mp hin
    have hpred := (List.mem_filter.mp hp).2
    simp only [Bool.not_eq_true', List.any_eq_false, decide_eq_true_eq] at hpred
    exact hpred e he (by rw [hpid]; exact htgt)
  · intro hroot
    have hx : x ∈ ns.filter
        (fun n => !(es.any (fun e => decide (e.target = n.id)))) := by
      rw [List.mem_filter]
      refine ⟨hmem, ?_⟩
      simp only [Bool.not_eq_true', List.any_eq_false, decide_eq_true_eq]
      intro e he htgt
      exact hroot ⟨e, he, htgt⟩
    rw [← rootsList_snd ns es] at hx
    obtain ⟨p, hp, hpx⟩ := List.mem_map.mp hx
    exact List.mem_map.mpr ⟨p, hp, by rw [hpx]⟩

theorem flatNode_eff (ent : FlatEntity) :
    (flatNode ent).effectiveOwnership = none := rfl

/-- C1 (amended): for every flat entity list with pairwise-distinct ids whose
synthesized edge set is acyclic, `loadFlatEntityList` computes effective
ownership as follows: every root node (never the target of any synthesized
edge) gets exactly 100; every non-root node with at least one path from a
root gets the sum, over every path from a root to it, of 100 times the
product of (stake/100) along the path's edges (stake = ownershipPercentage,
0 when absent); a non-root node with no path from any root (e.g. a dangling
parent reference) retains no computed effective ownership. -/
theorem loadFlatEntityList_effectiveOwnership (st : DiagramState)
    (entities : List FlatEntity)
    (hnd : (entities.map (fun ent => ent.id)).Nodup)
    (hacyc : EdgeAcyclic (flatEdges entities)) :
    ∀ n ∈ (loadFlatEntityList st entities).nodes,
      ((¬ ∃ e ∈ flatEdges entities, e.target = n.id) →
        n.effectiveOwnership = some 100) ∧
      ((∃ e ∈ flatEdges entities, e.target = n.id) →
        n.effectiveOwnership =
          (if rootPathsTo (entities.map flatNode) (flatEdges entities) n.id = []
           then none
           else some (((rootPathsTo (entities.map flatNode)
             (flatEdges entities) n.id).map pathValue).sum))) := by
  have hndids : ((entities.map flatNode).map (fun n => n.id)).Nodup := by
    rw [flatNodes_ids]
    exact hnd
  have hesnd : (flatEdges entities).Nodup := flatEdges_nodup entities hnd
  have hids : ∀ e ∈ flatEdges entities,
      e.target ∈ (entities.map flatNode).map (fun n => n.id) := by
    intro e he
    rw [flatNodes_ids]
    exact flatEdges_target_mem entities e he
  have hnodes : (loadFlatEntityList st entities).nodes =
      (entities.map flatNode).map
        (rootTransform (flatEdges entities)
          ((entities.map flatNode).map (fun n => n.id))
          (rootsList (entities.map flatNode) (flatEdges entities))) := by
    show calculateEffectiveOwnership (entities.map flatNode)
        (flatEdges entities) = _
    exact calculateEffectiveOwnership_eq (entities.map flatNode)
      (flatEdges entities) hndids
  intro n hn
  rw [hnodes] at hn
  obtain ⟨n₀, hn₀, rfl⟩ := List.mem_map.mp hn
  have hid : (rootTransform (flatEdges entities)
      ((entities.map flatNode).map (fun n => n.id))
      (rootsList (entities.map flatNode) (flatEdges entities)) n₀).id =
      n₀.id :=
    rootTransform_id _ _ _ n₀
  constructor
  · intro hroot
    rw [hid] at hroot
    have hin : n₀.id ∈ (rootsList (entities.map flatNode)
        (flatEdges entities)).map (fun p => p.2.id) :=
      (mem_rootsList_ids _ _ n₀ hn₀).mpr hroot
    unfold rootTransform
    rw [if_pos hin]
  · intro htgt
    rw [hid] at htgt
    have hnotin : n₀.id ∉ (rootsList (entities.map flatNode)
        (flatEdges entities)).map (fun p => p.2.id) := by
      intro hin
      exact (mem_rootsList_ids _ _ n₀ hn₀).mp hin htgt
    have hδ : totalDelta (flatEdges entities)
        ((entities.map flatNode).map (fun n => n.id))
        (rootsList (entities.map flatNode) (flatEdges entities)) n₀.id =
        listToDelta 100 (rootPathsTo (entities.map flatNode)
          (flatEdges entities) n₀.id) :=
      totalDelta_rootPaths (entities.map flatNode) (flatEdges entities)
        hndids hesnd hids hacyc n₀.id
    obtain ⟨ent, -, rfl⟩ := List.mem_map.mp hn₀
    rw [hid]
    unfold rootTransform
    rw [if_neg hnotin]
    by_cases hL : rootPathsTo (entities.map flatNode) (flatEdges entities)
        (flatNode ent).id = []
    · rw [if_pos hL]
      rw [hL, listToDelta_nil] at hδ
      rw [applyD_skip _ _ hδ, flatNode_eff]
    · rw [if_neg hL]
      have hsome : totalDelta (flatEdges entities)
          ((entities.map flatNode).map (fun n => n.id))
          (rootsList (entities.map flatNode) (flatEdges entities))
          (flatNode ent).id =
          some (100 * ((rootPathsTo (entities.map flatNode)
            (flatEdges entities) (flatNode ent).id).map wprod).sum) := by
        rw [hδ, listToDelta, if_neg hL]
      unfold applyD
      rw [hsome]
      rw [flatNode_eff]
      rw [sum_pathValue]
      simp

/-- C1 counterexample: the claim as stated fails on a flat list with a
dangling parent reference.  For `[{id: "X", parentId: "ghost", 50%}]` the
edge set `[ghost→X]` is acyclic and X is not a root, but there is no root
node at all, so the claimed "sum over every path from a root" is the empty
sum 0 — while the code leaves X's effective ownership absent (`none`), not 0. -/
theorem C1Stated_false : ¬ C1Stated := by
  intro h
  have hacyc : EdgeAcyclic (flatEdges [entX]) :=
    ⟨fun s => if s = "X" then 1 else 0, by decide⟩
  have hnodes : (loadFlatEntityList emptyState [entX]).nodes =
      [flatNode entX] := rfl
  have hmem : flatNode entX ∈ (loadFlatEntityList emptyState [entX]).nodes := by
    rw [hnodes]
    exact List.mem_singleton.mpr rfl
  have hex : ∃ e ∈ flatEdges [entX], e.target = (flatNode entX).id := by
    decide
  have h2 := (h emptyState [entX] hacyc (flatNode entX) hmem).2 hex
  rw [flatNode_eff] at h2
  exact Option.noConfusion h2

/-- Witness for C1 (amended) at the spec's own flat-list example
`[{id: R, 100}, {id: X, parentId: R, 50}]`. -/
theorem loadFlatEntityList_effectiveOwnership_witness :
    ((entsRX.map (fun ent => ent.id)).Nodup) ∧
    EdgeAcyclic (flatEdges entsRX) ∧
    (∀ n ∈ (loadFlatEntityList emptyState entsRX).nodes,
      ((¬ ∃ e ∈ flatEdges entsRX, e.target = n.id) →
        n.effectiveOwnership = some 100) ∧
      ((∃ e ∈ flatEdges entsRX, e.target = n.id) →
        n.effectiveOwnership =
          (if rootPathsTo (entsRX.map flatNode) (flatEdges entsRX) n.id = []
           then none
           else some (((rootPathsTo (entsRX.map flatNode)
             (flatEdges entsRX) n.id).map pathValue).sum)))) :=
  ⟨by decide,
   ⟨fun s => if s = "X" then 1 else 0, by decide⟩,
   loadFlatEntityList_effectiveOwnership emptyState entsRX (by decide)
     ⟨fun s => if s = "X" then 1 else 0, by decide⟩⟩
